import Mathlib

/-!
# Verification of the wtml scraping/upload pipeline

Shallow embedding of the field-normalization, name/identity matching and
record-sink logic of the repository (src/gift_scraper.py,
src/member_links_scraper.py, src/upload.py), together with theorems that
settle the specification claims about them.

Python strings are modelled as Lean `String`/`List Char`; `None`/`NaN`
cell values as an explicit constructor of `PyVal`; Python dicts as
association lists with first-hit lookup and in-place overwrite; pandas
DataFrames (for the aliasing/frame claims) as values in an explicit heap
(`List` of cells addressed by index), so that in-place mutation is
visible.
-/

namespace Wtml

/-- A Python cell value as it occurs in the scraped DataFrames:
a missing value (`NaN`/`None`), a string, or an integer (the resolved
`internal_unique_id`s). -/
inductive PyVal where
  | none : PyVal
  | str  : String → PyVal
  | int  : Int → PyVal
deriving DecidableEq, Repr, Inhabited

/-- `pd.isna` on a cell value. -/
def PyVal.isna : PyVal → Bool
  | .none => true
  | .str _ => false
  | .int _ => false

/-- Python truthiness of a cell value.  NOTE: `float('nan')` is *truthy*
in Python, so a missing value is truthy here; the empty string and the
integer `0` are falsy. -/
def PyVal.truthy : PyVal → Bool
  | .none => true
  | .str s => s ≠ ""
  | .int n => n ≠ 0

/-- `str(v)` on a cell value (a missing value renders as `"nan"`, as
`str(float('nan'))` does). -/
def PyVal.asStr : PyVal → String
  | .none => "nan"
  | .str s => s
  | .int n => toString n

/-- The whitespace characters stripped by Python's `str.strip()`
(the ASCII ones; every string this program strips is ASCII by then). -/
def isPySpace (c : Char) : Bool :=
  c = ' ' || c = '\t' || c = '\n' || c = '\x0d' || c = '\x0b' || c = '\x0c'

/-- `str.strip()` on a character list: drop leading and trailing
whitespace. -/
def pyStripList (l : List Char) : List Char :=
  ((l.dropWhile isPySpace).reverse.dropWhile isPySpace).reverse

/-- `str.strip()` on a string. -/
def pyStrip (s : String) : String :=
  ⟨pyStripList s.data⟩

/-- The characters strictly before the first comma (`s.split(',', 1)[0]`). -/
def beforeComma (l : List Char) : List Char :=
  l.takeWhile (fun c => c ≠ ',')

/-- The characters strictly after the first comma (`s.split(',', 1)[1]`). -/
def afterComma (l : List Char) : List Char :=
  (l.dropWhile (fun c => c ≠ ',')).drop 1

/-- `',' in s` for a Python string. -/
def hasComma (l : List Char) : Bool :=
  l.contains ','

/-!
## Field Normalizer: gift_scraper.TravelReportsScraper._process_xml_file

`processMemberName` embeds the `MemberName` handling (lines 221-231 of
src/gift_scraper.py): split on the first comma, left trimmed → last
name, right trimmed → first name, full name rejoined as
`f"{first} {last}"`; without a comma the whole string is the last name.

`processDestination` embeds the `Destination` handling (lines 234-242):
split on the first comma, left trimmed → city, right trimmed → state;
without a comma the whole string is the city and the state is the
sentinel `"FX"`.
-/

/-- Result of the `MemberName` block: `(member_last_name,
member_first_name, member_full_name)`. -/
def processMemberName (raw : String) : String × String × String :=
  if hasComma raw.data then
    let last_name : String := ⟨beforeComma raw.data⟩
    let first_name : String := ⟨afterComma raw.data⟩
    (pyStrip last_name, pyStrip first_name,
      pyStrip first_name ++ " " ++ pyStrip last_name)
  else
    (raw, "", raw)

/-- Result of the `Destination` block: `(destination_city,
destination_state)`. -/
def processDestination (raw : String) : String × String :=
  if hasComma raw.data then
    let city : String := ⟨beforeComma raw.data⟩
    let state : String := ⟨afterComma raw.data⟩
    (pyStrip city, pyStrip state)
  else
    (raw, "FX")

/-!
## Field Normalizer: member_links_scraper.normalize_text

`normalize_text` (lines 20-59 of src/member_links_scraper.py) folds text
to ASCII: an explicit accent table, `unicodedata.normalize('NFKD', ...)`
followed by removal of combining marks, `encode('ascii', 'replace')`
(every non-ASCII character becomes `'?'`), removal of all `'?'`
characters, and a final `strip()`.  The Unicode tables backing
`unicodedata` are not part of the repository, so they are abstracted as
a `UnicodeTable`; the facts the proofs use about the real tables (an
ASCII character decomposes to itself and is not a combining mark) are
hypotheses of the theorems.
-/

/-- The relevant part of the `unicodedata` module: the NFKD
decomposition of a character and the combining-class test. -/
structure UnicodeTable where
  nfkd : Char → List Char
  combining : Char → Bool

/-- The explicit accent table of `normalize_text`
(`special_chars_map`), in its Python insertion order. -/
def specialCharsMap : List (Char × Char) :=
  [('Á', 'A'), ('á', 'a'),
   ('É', 'E'), ('é', 'e'),
   ('Í', 'I'), ('í', 'i'),
   ('Ó', 'O'), ('ó', 'o'),
   ('Ú', 'U'), ('ú', 'u'),
   ('Ü', 'U'), ('ü', 'u'),
   ('Ñ', 'N'), ('ñ', 'n'),
   ('Ç', 'C'), ('ç', 'c'),
   ('Ã', 'a')]

/-- `text.replace(k, v)` for single characters. -/
def replaceChar (k v : Char) (l : List Char) : List Char :=
  l.map (fun c => if c = k then v else c)

/-- A character that survives `encode('ascii', ...)` unchanged. -/
def isAsciiC (c : Char) : Bool :=
  c.toNat ≤ 127

/-- `bytes.decode` error modes used by `str.encode`: `'strict'` raises
on a non-ASCII character, `'replace'` substitutes `'?'`. -/
inductive EncMode where
  | strict : EncMode
  | replace : EncMode

/-- `text.encode('ascii', mode).decode('ascii')`: with `'strict'` it
raises `UnicodeEncodeError` on any non-ASCII character, with
`'replace'` it is total and replaces non-ASCII characters by `'?'`. -/
def pyEncodeAscii (mode : EncMode) (l : List Char) : Except String (List Char) :=
  match mode with
  | .strict =>
      if l.all isAsciiC then .ok l else .error "UnicodeEncodeError"
  | .replace =>
      .ok (l.map (fun c => if isAsciiC c then c else '?'))

/-- The body of `normalize_text` on the character list of a non-empty
string: accent table, NFKD decomposition, combining-mark removal, ASCII
encode with `'replace'`, `'?'` removal, `strip()`. -/
def foldToAsciiList (T : UnicodeTable) (l : List Char) : List Char :=
  if l = [] then l
  else
    -- accent table, NFKD + combining-mark removal, ASCII encode with
    -- 'replace', removal of the '?' marks, strip()
    pyStripList
      (((((specialCharsMap.foldl (fun acc p => replaceChar p.1 p.2 acc)
        l).map T.nfkd).flatten.filter (fun c => ! T.combining c)).map
          (fun c => if isAsciiC c then c else '?')).filter (fun c => c ≠ '?'))

/-- `normalize_text` itself. -/
def normalize_text (T : UnicodeTable) (s : String) : String :=
  ⟨foldToAsciiList T s.data⟩

/-- `normalize_text` with the `encode` step kept in the `Except` monad,
so that the only operation of the pipeline that *can* raise (an
`encode` in `'strict'` mode would) is visible; the code calls it in
`'replace'` mode. -/
def normalize_textE (T : UnicodeTable) (s : String) : Except String String :=
  if s.data = [] then .ok s
  else
    match pyEncodeAscii .replace
      ((((specialCharsMap.foldl (fun acc p => replaceChar p.1 p.2 acc)
        s.data).map T.nfkd).flatten).filter (fun c => ! T.combining c)) with
    | .error e => .error e
    | .ok step4 =>
        .ok ⟨pyStripList (step4.filter (fun c => c ≠ '?'))⟩

/-- The facts about the real Unicode tables that the theorems assume:
an ASCII character is NFKD-stable and is not a combining mark. -/
def AsciiStable (T : UnicodeTable) : Prop :=
  (∀ c, isAsciiC c = true → T.nfkd c = [c]) ∧
  (∀ c, isAsciiC c = true → T.combining c = false)

/-- A degenerate Unicode table used to instantiate theorems on concrete
inputs: every character is NFKD-stable and none is combining.  It
satisfies `AsciiStable` definitionally. -/
def trivTable : UnicodeTable where
  nfkd := fun c => [c]
  combining := fun _ => false

/-!
## Decimal rendering and parsing

`str(n)` and the `{n:04d}` format of Python for natural numbers, plus
`int(s)` for strings of digits.  `natReprAux` uses explicit fuel so
that it is structurally recursive and evaluates inside the kernel.
-/

/-- Big-endian decimal digits of `n`, with fuel (`fuel ≥ n` suffices). -/
def natReprAux : Nat → Nat → List Char
  | 0, _ => []
  | fuel + 1, n =>
      if n = 0 then []
      else natReprAux fuel (n / 10) ++ [Nat.digitChar (n % 10)]

/-- `str(n)` for a natural number. -/
def natRepr (n : Nat) : String :=
  if n = 0 then "0" else ⟨natReprAux n n⟩

/-- `int(s)` for a string of decimal digits (value of the digits,
most-significant first). -/
def strToNat (l : List Char) : Nat :=
  l.foldl (fun a c => a * 10 + (c.toNat - 48)) 0

/-- `f"{n:04d}"`: decimal digits of `n`, left-padded with `'0'` to at
least four characters. -/
def zeroPad4 (n : Nat) : String :=
  if (natRepr n).length < 4 then
    ⟨List.replicate (4 - (natRepr n).length) '0'⟩ ++ natRepr n
  else natRepr n

/-- `f"staff{n:04d}"`: the staff surrogate id allocated at sequence
number `n` (src/upload.py lines 153 and 180). -/
def staffIdFor (n : Nat) : String :=
  "staff" ++ zeroPad4 n

/-- `s.isdigit()` (restricted to ASCII digits, which is what the
`report_year` strings contain). -/
def pyIsdigit (l : List Char) : Bool :=
  !l.isEmpty && l.all Char.isDigit

/-- `int(s)` for a general string: strip whitespace, optional sign,
then at least one digit; `Option.none` models the `ValueError` raised
otherwise.  (Python also accepts underscores between digits; none of
the ids this program parses contain them.) -/
def pyInt (s : String) : Option Int :=
  match pyStripList s.data with
  | '+' :: ds =>
      if pyIsdigit ds then some (strToNat ds : Nat) else none
  | '-' :: ds =>
      if pyIsdigit ds then some (-(strToNat ds : Nat) : Int) else none
  | ds =>
      if pyIsdigit ds then some (strToNat ds : Nat) else none

/-!
## Python dicts

Association lists with first-hit lookup; insertion overwrites an
existing key in place (as Python dicts do) and otherwise appends.
-/

/-- `d.get(k)` / `k in d`. -/
def dictFind {β : Type} : List (String × β) → String → Option β
  | [], _ => none
  | (k', v) :: t, k => if k' = k then some v else dictFind t k

/-- `d[k] = v`. -/
def dictInsert {β : Type} (l : List (String × β)) (k : String) (v : β) :
    List (String × β) :=
  if (dictFind l k).isSome then
    l.map (fun p => if p.1 = k then (k, v) else p)
  else l ++ [(k, v)]

/-!
## Name/Identity Matcher: upload.SupabaseUploader

State and per-record step of `SupabaseUploader.process_records`
(src/upload.py lines 94-241), together with the roster/staff loders
`load_member_details` (lines 35-58) and `load_staff_details` (lines
60-92).
-/

/-- The mutable state of a matching session held on the
`SupabaseUploader` object: `member_id_mapping`, `staff_id_mapping`,
`next_staff_num` and the cached current calendar year. -/
structure MatcherState where
  member_id_mapping : List (String × Int)
  staff_id_mapping : List (String × String)
  next_staff_num : Nat
  current_year : Nat
deriving DecidableEq, Repr

/-- One queued `member_staff` row (the dict built at src/upload.py
lines 158-167 and 185-194).  The `date_created` field, a constant of
the run date, is omitted. -/
structure StaffEntry where
  unique_staff_id : String
  staff_first : String
  staff_last : String
  staff_full_name : String
  member_name : Option String
  member_id : Option Int
  year : Option Int
deriving DecidableEq, Repr

/-- The fields of one travel-report row read by `process_records`:
`member_full_name` (`Option.none` models `NaN`), the raw `report_year`
cell rendered by `str(...)`, and the two filer-name cells fetched with
`row.get(..., '')`. -/
structure TravelRow where
  member_full_name : Option String
  report_year : String
  filer_first_name : PyVal
  filer_last_name : PyVal
deriving DecidableEq, Repr

/-- The truthiness-and-`isna` guard at src/upload.py lines 146 and
176: `filer_first and filer_last and not pd.isna(filer_first) and not
pd.isna(filer_last)`. -/
def filerPresent (f1 f2 : PyVal) : Bool :=
  f1.truthy && f2.truthy && !f1.isna && !f2.isna

/-- `f"{filer_first} {filer_last}".strip()`. -/
def filerFullName (f1 f2 : PyVal) : String :=
  pyStrip (f1.asStr ++ " " ++ f2.asStr)

/-- How `process_records` classifies one row: dropped, admitted with a
resolved id, or admitted with the unknown-member sentinel `0`. -/
inductive RowClass where
  | skip : RowClass
  | admitted : Int → RowClass
  | admitUnknown : RowClass
deriving DecidableEq, Repr

/-- `int(report_year) if report_year.isdigit() else None` (the `year`
field of a queued staff row). -/
def yearField (report_year : String) : Option Int :=
  if pyIsdigit report_year.data then some (strToNat report_year.data : Nat)
  else none

/-- The body of the `for index, row in result_df.iterrows()` loop of
`process_records` (src/upload.py lines 129-198) for a single row:
returns the updated session state, the row's classification, and the
staff row queued for insertion, if any. -/
def processRecord (st : MatcherState) (row : TravelRow) :
    MatcherState × RowClass × Option StaffEntry :=
  -- `report_year = str(row['report_year']).strip()` is written out as
  -- `pyStrip row.report_year` below; `filer_full_name` as
  -- `filerFullName row.filer_first_name row.filer_last_name`
  match row.member_full_name with
  | Option.none => (st, .skip, Option.none)
  | Option.some member_name =>
    if member_name = "badvalue" then (st, .skip, Option.none)
    else
      match dictFind st.member_id_mapping member_name with
      | Option.some member_id =>
          if filerPresent row.filer_first_name row.filer_last_name then
            if filerFullName row.filer_first_name row.filer_last_name
                ≠ member_name then
              if (dictFind st.staff_id_mapping
                  (filerFullName row.filer_first_name row.filer_last_name)).isNone
              then
                ({ st with
                    staff_id_mapping :=
                      dictInsert st.staff_id_mapping
                        (filerFullName row.filer_first_name row.filer_last_name)
                        (staffIdFor st.next_staff_num),
                    next_staff_num := st.next_staff_num + 1 },
                 .admitted member_id,
                 Option.some
                   { unique_staff_id := staffIdFor st.next_staff_num,
                     staff_first := row.filer_first_name.asStr,
                     staff_last := row.filer_last_name.asStr,
                     staff_full_name :=
                       filerFullName row.filer_first_name row.filer_last_name,
                     member_name := Option.some member_name,
                     member_id := Option.some member_id,
                     year := yearField (pyStrip row.report_year) })
              else (st, .admitted member_id, Option.none)
            else (st, .admitted member_id, Option.none)
          else (st, .admitted member_id, Option.none)
      | Option.none =>
          if pyStrip row.report_year = natRepr st.current_year then
            -- current-year row with unknown member: admitted with the
            -- sentinel id 0; NOTE the code does not compare the filer
            -- name with the member name in this branch
            if filerPresent row.filer_first_name row.filer_last_name then
              if (dictFind st.staff_id_mapping
                  (filerFullName row.filer_first_name row.filer_last_name)).isNone
              then
                ({ st with
                    staff_id_mapping :=
                      dictInsert st.staff_id_mapping
                        (filerFullName row.filer_first_name row.filer_last_name)
                        (staffIdFor st.next_staff_num),
                    next_staff_num := st.next_staff_num + 1 },
                 .admitUnknown,
                 Option.some
                   { unique_staff_id := staffIdFor st.next_staff_num,
                     staff_first := row.filer_first_name.asStr,
                     staff_last := row.filer_last_name.asStr,
                     staff_full_name :=
                       filerFullName row.filer_first_name row.filer_last_name,
                     member_name := Option.none,
                     member_id := Option.none,
                     year := yearField (pyStrip row.report_year) })
              else (st, .admitUnknown, Option.none)
            else (st, .admitUnknown, Option.none)
          else (st, .skip, Option.none)

/-- `match se with some e => e :: l | none => l` — queueing an optional
staff row. -/
def optCons {β : Type} : Option β → List β → List β
  | Option.none, l => l
  | Option.some e, l => e :: l

/-- The whole `process_records` loop over the rows, carried out at
positions `i, i+1, ...`: final state, kept rows with their written
`internal_unique_id`, queued staff rows, and the indices appended to
`records_to_skip`. -/
def processRecordsGo (st : MatcherState) :
    List TravelRow → Nat →
      MatcherState × List (TravelRow × Int) × List StaffEntry × List Nat
  | [], _ => (st, [], [], [])
  | row :: rest, i =>
    match (processRecord st row).2.1 with
    | .skip =>
        ((processRecordsGo (processRecord st row).1 rest (i + 1)).1,
         (processRecordsGo (processRecord st row).1 rest (i + 1)).2.1,
         optCons (processRecord st row).2.2
           (processRecordsGo (processRecord st row).1 rest (i + 1)).2.2.1,
         i :: (processRecordsGo (processRecord st row).1 rest (i + 1)).2.2.2)
    | .admitted id =>
        ((processRecordsGo (processRecord st row).1 rest (i + 1)).1,
         (row, id) :: (processRecordsGo (processRecord st row).1 rest (i + 1)).2.1,
         optCons (processRecord st row).2.2
           (processRecordsGo (processRecord st row).1 rest (i + 1)).2.2.1,
         (processRecordsGo (processRecord st row).1 rest (i + 1)).2.2.2)
    | .admitUnknown =>
        ((processRecordsGo (processRecord st row).1 rest (i + 1)).1,
         (row, 0) :: (processRecordsGo (processRecord st row).1 rest (i + 1)).2.1,
         optCons (processRecord st row).2.2
           (processRecordsGo (processRecord st row).1 rest (i + 1)).2.2.1,
         (processRecordsGo (processRecord st row).1 rest (i + 1)).2.2.2)

/-- `process_records` on a batch: the loop from position 0.  The kept
rows appear in their original order with skipped rows removed (the
`drop` + `reset_index` at src/upload.py lines 214-217). -/
def process_records (st : MatcherState) (rows : List TravelRow) :
    MatcherState × List (TravelRow × Int) × List StaffEntry × List Nat :=
  processRecordsGo st rows 0

/-- The per-record case analysis of the specification (§4.2), used to
state the refinement claims: missing or `'badvalue'` member name →
skip; name found in the member index → admit with the mapped id; not
found and current-year → admit-unknown; otherwise skip. -/
def specClassify (member_index : List (String × Int)) (current_year : Nat)
    (row : TravelRow) : RowClass :=
  match row.member_full_name with
  | Option.none => .skip
  | Option.some name =>
      if name = "badvalue" then .skip
      else
        match dictFind member_index name with
        | Option.some i => .admitted i
        | Option.none =>
            if pyStrip row.report_year = natRepr current_year then .admitUnknown
            else .skip

/-- What the specification says ends up in the output batch for one
row: admitted rows with their mapped id, admit-unknown rows with the
sentinel `0`, skipped rows nothing. -/
def specAdmitted (member_index : List (String × Int)) (current_year : Nat)
    (row : TravelRow) : Option (TravelRow × Int) :=
  match specClassify member_index current_year row with
  | .skip => Option.none
  | .admitted i => Option.some (row, i)
  | .admitUnknown => Option.some (row, 0)

/-- The *amended* per-record staff-allocation rule (what the code
does): a staff row is queued iff both filer fields are non-missing,
non-empty strings, the joined filer name is not already a key of the
staff index, and — *only when the member was found* — the joined filer
name differs from the member name.  For admit-unknown rows no
name-distinctness check is made. -/
def amendedStaffAlloc (st : MatcherState) (row : TravelRow) :
    Option StaffEntry :=
  match specClassify st.member_id_mapping st.current_year row,
      row.member_full_name with
  | .admitted mid, Option.some member_name =>
      if filerPresent row.filer_first_name row.filer_last_name
          ∧ filerFullName row.filer_first_name row.filer_last_name ≠ member_name
          ∧ (dictFind st.staff_id_mapping
              (filerFullName row.filer_first_name row.filer_last_name)).isNone
      then Option.some
        { unique_staff_id := staffIdFor st.next_staff_num,
          staff_first := row.filer_first_name.asStr,
          staff_last := row.filer_last_name.asStr,
          staff_full_name := filerFullName row.filer_first_name row.filer_last_name,
          member_name := Option.some member_name,
          member_id := Option.some mid,
          year := yearField (pyStrip row.report_year) }
      else Option.none
  | .admitUnknown, _ =>
      if filerPresent row.filer_first_name row.filer_last_name
          ∧ (dictFind st.staff_id_mapping
              (filerFullName row.filer_first_name row.filer_last_name)).isNone
      then Option.some
        { unique_staff_id := staffIdFor st.next_staff_num,
          staff_first := row.filer_first_name.asStr,
          staff_last := row.filer_last_name.asStr,
          staff_full_name := filerFullName row.filer_first_name row.filer_last_name,
          member_name := Option.none,
          member_id := Option.none,
          year := yearField (pyStrip row.report_year) }
      else Option.none
  | _, _ => Option.none

/-- The session invariant of the staff index: no stored surrogate id
collides with an id the counter may still allocate, the names are
pairwise distinct, and no id is shared by two names. -/
def StaffWF (st : MatcherState) : Prop :=
  (∀ p ∈ st.staff_id_mapping, ∀ m, st.next_staff_num ≤ m → p.2 ≠ staffIdFor m) ∧
  (st.staff_id_mapping.map Prod.fst).Nodup ∧
  (∀ p ∈ st.staff_id_mapping, ∀ q ∈ st.staff_id_mapping, p.2 = q.2 → p.1 = q.1)

/-!
## The roster/staff loaders and their failure semantics
-/

/-- One row of the `member_details` query result; `Option.none` covers
both an absent key and a SQL `NULL`. -/
structure MemberRecord where
  member_full_name : Option String
  internal_unique_id : Option Int
deriving DecidableEq, Repr

/-- One row of the `member_staff` query result. -/
structure StaffRecord where
  staff_full_name : Option String
  unique_staff_id : Option String
deriving DecidableEq, Repr

/-- Python truthiness of `record.get(...)` results. -/
def optStrTruthy : Option String → Bool
  | Option.some s => s ≠ ""
  | Option.none => false

/-- Python truthiness of an optional integer (`0` is falsy). -/
def optIntTruthy : Option Int → Bool
  | Option.some i => i ≠ 0
  | Option.none => false

/-- `load_member_details` (src/upload.py lines 35-58): on a query
error the exception is caught, logged and the state left untouched;
on success every record with truthy name and id is entered into
`member_id_mapping`. -/
def load_member_details (resp : Except String (List MemberRecord))
    (st : MatcherState) : MatcherState :=
  match resp with
  | .error _ => st
  | .ok records =>
      { st with
        member_id_mapping := records.foldl
          (fun m r =>
            match r.member_full_name, r.internal_unique_id with
            | Option.some name, Option.some idv =>
                if name ≠ "" ∧ idv ≠ 0 then dictInsert m name idv else m
            | _, _ => m)
          st.member_id_mapping }

/-- The `next_staff_num` update for one loaded staff id
(src/upload.py lines 79-84): ids of the form `staff<int>` bump the
counter, any other id is ignored (`ValueError` swallowed). -/
def bumpNextStaff (next : Nat) (idv : String) : Nat :=
  if idv.data.take 5 = "staff".data then
    match pyInt ⟨idv.data.drop 5⟩ with
    | Option.some num => max next (num + 1).toNat
    | Option.none => next
  else next

/-- `load_staff_details` (src/upload.py lines 60-92): on a query error
the state is untouched; on success every record with truthy name and
id is entered into `staff_id_mapping` and the counter is bumped. -/
def load_staff_details (resp : Except String (List StaffRecord))
    (st : MatcherState) : MatcherState :=
  match resp with
  | .error _ => st
  | .ok records =>
      records.foldl
        (fun s r =>
          match r.staff_full_name, r.unique_staff_id with
          | Option.some name, Option.some idv =>
              if name ≠ "" ∧ idv ≠ "" then
                { s with
                  staff_id_mapping := dictInsert s.staff_id_mapping name idv,
                  next_staff_num := bumpNextStaff s.next_staff_num idv }
              else s
          | _, _ => s)
        st

/-- `process_records` including its lazy loads (src/upload.py lines
115-120): the member and staff tables are fetched only when the
corresponding mapping is still empty. -/
def process_records_full (memResp : Except String (List MemberRecord))
    (staffResp : Except String (List StaffRecord))
    (st : MatcherState) (rows : List TravelRow) :
    MatcherState × List (TravelRow × Int) × List StaffEntry × List Nat :=
  let st1 := if st.member_id_mapping.isEmpty then load_member_details memResp st
    else st
  let st2 := if st1.staff_id_mapping.isEmpty then load_staff_details staffResp st1
    else st1
  process_records st2 rows

/-!
## Record Sink: upload.SupabaseUploader.upload_data, insert phase

The insert phase of `upload_data` (src/upload.py lines 374-424): one
batch insert; on failure a schema probe (its own `try`), then — inside
one shared `try` — a minimal diagnostic insert built from the first
record and, only if that did not raise, one insert per record, each in
its own `try`.  The storage backend is abstracted as an oracle
`ins : List α → Except String Unit`; the observable behaviour is the
list of emitted events.
-/

/-- The observable events of the insert phase, in order. -/
inductive UploadEvent (α : Type) where
  | batchOk (n : Nat) : UploadEvent α
  | batchErr (msg : String) : UploadEvent α
  | schemaProbe : UploadEvent α
  | minimalOk : UploadEvent α
  | minimalErr (msg : String) : UploadEvent α
  | recOk (i : Nat) : UploadEvent α
  | recErr (i : Nat) (msg : String) (dump : α) : UploadEvent α
deriving DecidableEq, Repr

/-- The `for i, record in enumerate(records)` loop (lines 412-420):
every record is attempted in its own `try`; a failure is reported with
the record's index and a dump of the record, and the loop continues. -/
def perRecordEvents {α : Type} (ins : List α → Except String Unit)
    (records : List α) : List (UploadEvent α) :=
  records.enum.map (fun p =>
    match ins [p.2] with
    | .ok _ => UploadEvent.recOk p.1
    | .error e => UploadEvent.recErr p.1 e p.2)

/-- The insert phase of `upload_data`.  `mkMinimal` builds the minimal
diagnostic record from `records[0]` (line 402-406); if its insert
raises, the enclosing `try` aborts and the per-record loop never runs
(line 421-422). -/
def upload_data_insert {α : Type} (ins : List α → Except String Unit)
    (mkMinimal : α → α) (records : List α) : List (UploadEvent α) :=
  match ins records with
  | .ok _ => [UploadEvent.batchOk records.length]
  | .error e =>
      UploadEvent.batchErr e :: UploadEvent.schemaProbe ::
        (match records with
         | [] => perRecordEvents ins []
         | r0 :: _ =>
             match ins [mkMinimal r0] with
             | .error e2 => [UploadEvent.minimalErr e2]
             | .ok _ => UploadEvent.minimalOk :: perRecordEvents ins records)

/-- The indices for which a separate insert was attempted. -/
def attemptedIdx {α : Type} (evs : List (UploadEvent α)) : List Nat :=
  evs.filterMap (fun ev =>
    match ev with
    | UploadEvent.recOk i => Option.some i
    | UploadEvent.recErr i _ _ => Option.some i
    | _ => Option.none)

/-!
## The DataFrame heap model (frame claims)

pandas DataFrames are modelled as values (`PDF`) living in an explicit
heap — a list of cells addressed by index.  `df.copy()`, `rename`,
column selection, `drop`, `reset_index` and `head` allocate fresh
cells; `.at[...]` assignments and `clean_df[col] = ...` assignments
mutate the cell of the object they are called on in place.  This makes
the aliasing behaviour of the Python code visible so that
"the caller's DataFrame is not mutated" is a real statement.
-/

/-- A pandas dtype, to the extent `handle_nan_values` inspects it. -/
inductive Dtype where
  | int64 : Dtype
  | float64 : Dtype
  | nullableInt64 : Dtype
  | object : Dtype
deriving DecidableEq, Repr

/-- `pd.api.types.is_numeric_dtype`. -/
def Dtype.isNumeric : Dtype → Bool
  | .object => false
  | _ => true

/-- `pd.api.types.is_integer_dtype`. -/
def Dtype.isInteger : Dtype → Bool
  | .int64 => true
  | .nullableInt64 => true
  | _ => false

/-- A DataFrame value: named, typed columns and rows of keyed cells. -/
structure PDF where
  cols : List (String × Dtype)
  rows : List (List (String × PyVal))
deriving DecidableEq, Repr, Inhabited

/-- Heap allocation: append a cell, return its address. -/
def hAlloc (h : List PDF) (v : PDF) : List PDF × Nat :=
  (h ++ [v], h.length)

/-- In-place mutation of the cell at address `i`. -/
def hSet (h : List PDF) (i : Nat) (v : PDF) : List PDF :=
  h.set i v

/-- Dereference the cell at address `i`. -/
def hGet (h : List PDF) (i : Nat) : PDF :=
  h.getD i default

/-- Reading the matcher's fields out of one DataFrame row
(`row['member_full_name']`, `str(row['report_year'])`,
`row.get('filer_first_name', '')`, `row.get('filer_last_name', '')`). -/
def toTravelRow (r : List (String × PyVal)) : TravelRow :=
  { member_full_name :=
      match dictFind r "member_full_name" with
      | Option.some (PyVal.str s) => Option.some s
      | _ => Option.none,
    report_year := ((dictFind r "report_year").getD PyVal.none).asStr,
    filer_first_name := (dictFind r "filer_first_name").getD (PyVal.str ""),
    filer_last_name := (dictFind r "filer_last_name").getD (PyVal.str "") }

/-- The `process_records` loop over DataFrame rows: which row indices
get an `internal_unique_id` written (`.at` assignments), which staff
rows are queued, and which indices are marked for dropping. -/
def matcherLoop (st : MatcherState) :
    List (List (String × PyVal)) → Nat →
      MatcherState × List (Nat × Int) × List StaffEntry × List Nat
  | [], _ => (st, [], [], [])
  | r :: rest, i =>
    match (processRecord st (toTravelRow r)).2.1 with
    | .skip =>
        ((matcherLoop (processRecord st (toTravelRow r)).1 rest (i + 1)).1,
         (matcherLoop (processRecord st (toTravelRow r)).1 rest (i + 1)).2.1,
         optCons (processRecord st (toTravelRow r)).2.2
           (matcherLoop (processRecord st (toTravelRow r)).1 rest (i + 1)).2.2.1,
         i :: (matcherLoop (processRecord st (toTravelRow r)).1 rest (i + 1)).2.2.2)
    | .admitted id =>
        ((matcherLoop (processRecord st (toTravelRow r)).1 rest (i + 1)).1,
         (i, id) :: (matcherLoop (processRecord st (toTravelRow r)).1 rest (i + 1)).2.1,
         optCons (processRecord st (toTravelRow r)).2.2
           (matcherLoop (processRecord st (toTravelRow r)).1 rest (i + 1)).2.2.1,
         (matcherLoop (processRecord st (toTravelRow r)).1 rest (i + 1)).2.2.2)
    | .admitUnknown =>
        ((matcherLoop (processRecord st (toTravelRow r)).1 rest (i + 1)).1,
         (i, 0) :: (matcherLoop (processRecord st (toTravelRow r)).1 rest (i + 1)).2.1,
         optCons (processRecord st (toTravelRow r)).2.2
           (matcherLoop (processRecord st (toTravelRow r)).1 rest (i + 1)).2.2.1,
         (matcherLoop (processRecord st (toTravelRow r)).1 rest (i + 1)).2.2.2)

/-- `df.at[i, f] = v`: set the field of row `i` in place; a column not
present yet is appended (pandas gives such a column, holding NaN
elsewhere, dtype float64). -/
def dfSetAt (df : PDF) (i : Nat) (f : String) (v : PyVal) : PDF :=
  { cols := if df.cols.any (fun c => c.1 = f) then df.cols
      else df.cols ++ [(f, Dtype.float64)],
    rows := df.rows.enum.map (fun p =>
      if p.1 = i then dictInsert p.2 f v else p.2) }

/-- `df.drop(labels)` on the default integer index: remove the rows at
the given positions. -/
def dfDrop (df : PDF) (skips : List Nat) : PDF :=
  { df with
    rows := df.rows.enum.filterMap (fun p =>
      if p.1 ∈ skips then Option.none else Option.some p.2) }

/-- Replay the `.at[index, 'internal_unique_id'] = ...` writes of the
matcher loop against the heap cell at address `q`. -/
def atWrites (q : Nat) (writes : List (Nat × Int)) (h : List PDF) : List PDF :=
  writes.foldl (fun hh w =>
    hSet hh q (dfSetAt (hGet hh q) w.1 "internal_unique_id" (PyVal.int w.2))) h

/-- The heap after the copy and the in-place id writes of
`process_records`. -/
def prHeap1 (st : MatcherState) (h : List PDF) (p : Nat) : List PDF :=
  atWrites h.length (matcherLoop st (hGet h p).rows 0).2.1 (h ++ [hGet h p])

/-- `process_records` as a heap program (src/upload.py lines 94-241):
`result_df = df.copy()` allocates, the loop mutates the copy in place,
and — only when there are rows to skip — `drop` and
`reset_index(drop=True)` each return a fresh object. -/
def processRecordsHeap (st : MatcherState) (h : List PDF) (p : Nat) :
    List PDF × Nat × MatcherState :=
  if (matcherLoop st (hGet h p).rows 0).2.2.2.isEmpty then
    (prHeap1 st h p, h.length, (matcherLoop st (hGet h p).rows 0).1)
  else
    (prHeap1 st h p
       ++ [dfDrop (hGet (prHeap1 st h p) h.length)
             (matcherLoop st (hGet h p).rows 0).2.2.2]
       ++ [dfDrop (hGet (prHeap1 st h p) h.length)
             (matcherLoop st (hGet h p).rows 0).2.2.2],
     (prHeap1 st h p).length + 1,
     (matcherLoop st (hGet h p).rows 0).1)

/-- The database schema columns of `map_fields` (src/upload.py lines
255-264). -/
def dbColumns : List String :=
  ["docid", "report_year",
   "filer_first_name", "filer_last_name",
   "member_first_name", "member_last_name", "member_full_name",
   "internal_unique_id",
   "member_state", "member_district", "filingtype",
   "destination_city", "destination_state",
   "departuredate", "returndate",
   "travel_sponsor", "date_scraped"]

/-- Column renaming under an old-name → new-name mapping. -/
def renameKey (m : List (String × String)) (k : String) : String :=
  (dictFind m k).getD k

/-- `df.rename(columns=m)`: returns a renamed copy. -/
def dfRename (df : PDF) (m : List (String × String)) : PDF :=
  { cols := df.cols.map (fun c => (renameKey m c.1, c.2)),
    rows := df.rows.map (fun r => r.map (fun kv => (renameKey m kv.1, kv.2))) }

/-- `[col for col in db_columns if col in df.columns]`. -/
def selectCols (df : PDF) : List String :=
  dbColumns.filter (fun c => df.cols.any (fun d => d.1 = c))

/-- `df[columns_to_keep]`: returns a new frame with only those
columns, in `db_columns` order. -/
def dfSelect (df : PDF) : PDF :=
  { cols := (selectCols df).filterMap (fun c =>
      (df.cols.find? (fun d => d.1 = c)).map (fun d => (c, d.2))),
    rows := df.rows.map (fun r => (selectCols df).filterMap (fun c =>
      (dictFind r c).map (fun v => (c, v)))) }

/-- `map_fields` as a heap program (src/upload.py lines 243-277):
copy, optional rename, column selection — three allocations, no
mutation of any existing cell. -/
def mapFieldsHeap (h : List PDF) (p : Nat)
    (fieldMapping : Option (List (String × String))) : List PDF × Nat :=
  match fieldMapping with
  | Option.none =>
      (h ++ [hGet h p] ++ [dfSelect (hGet h p)], h.length + 1)
  | Option.some m =>
      (h ++ [hGet h p] ++ [dfRename (hGet h p) m]
         ++ [dfSelect (dfRename (hGet h p) m)],
       h.length + 2)

/-- The per-column body of `handle_nan_values` (src/upload.py lines
296-318): text columns get NaN replaced by `'badvalue'`;
`internal_unique_id` gets NaN replaced by `0` and becomes nullable
Int64; other integer columns become nullable Int64; float columns are
left alone. -/
def handleNanCol (df : PDF) (c : String × Dtype) : PDF :=
  if c.2.isNumeric then
    if c.1 = "internal_unique_id" then
      { cols := df.cols.map (fun d =>
          if d.1 = c.1 then (d.1, Dtype.nullableInt64) else d),
        rows := df.rows.map (fun r => r.map (fun kv =>
          if kv.1 = c.1 then
            (kv.1, if kv.2.isna then PyVal.int 0 else kv.2)
          else kv)) }
    else if c.2.isInteger then
      { df with cols := df.cols.map (fun d =>
          if d.1 = c.1 then (d.1, Dtype.nullableInt64) else d) }
    else df
  else
    { df with rows := df.rows.map (fun r => r.map (fun kv =>
        if kv.1 = c.1 then
          (kv.1, if kv.2.isna then PyVal.str "badvalue" else kv.2)
        else kv)) }

/-- `handle_nan_values` as a heap program (src/upload.py lines
279-320): `clean_df = df.copy()` allocates, then each
`clean_df[col] = ...` assignment mutates the copy in place. -/
def handleNanHeap (h : List PDF) (p : Nat) : List PDF × Nat :=
  ((hGet h p).cols.foldl
      (fun hh c => hSet hh h.length (handleNanCol (hGet hh h.length) c))
      (h ++ [hGet h p]),
   h.length)

/-- The rename loop of `upload_data` (src/upload.py lines 339-343):
for each applicable pair, `upload_df = upload_df.rename(...)`
allocates a fresh frame and rebinds the local. -/
def renameFold (h : List PDF) (p : Nat) :
    List (String × String) → List PDF × Nat
  | [] => (h, p)
  | (o, n) :: rest =>
      if (hGet h p).cols.any (fun c => c.1 = o) then
        renameFold (h ++ [dfRename (hGet h p) [(o, n)]]) h.length rest
      else renameFold h p rest

/-- `df.head(k)`. -/
def dfHead (df : PDF) (k : Nat) : PDF :=
  { df with rows := df.rows.take k }

/-- `upload_data` as a heap program up to the network insert
(src/upload.py lines 322-375): copy, rename loop, `process_records`,
`map_fields`, `handle_nan_values`, optional `head(max_records)`. -/
def uploadDataHeap (st : MatcherState) (h : List PDF) (p : Nat)
    (fieldMapping : Option (List (String × String)))
    (maxRecords : Option Nat) : List PDF × Nat × MatcherState :=
  match renameFold (h ++ [hGet h p]) h.length
      (match fieldMapping with
       | Option.none => []
       | Option.some m => m) with
  | (h1, p1) =>
    match processRecordsHeap st h1 p1 with
    | (h2, p2, st2) =>
      match mapFieldsHeap h2 p2 Option.none with
      | (h3, p3) =>
        match handleNanHeap h3 p3 with
        | (h4, p4) =>
          match maxRecords with
          | Option.some k =>
              if k ≠ 0 ∧ k < (hGet h4 p4).rows.length then
                (h4 ++ [dfHead (hGet h4 p4) k], h4.length, st2)
              else (h4, p4, st2)
          | Option.none => (h4, p4, st2)

end Wtml


namespace Wtml

/-! ## Decimal round-trip lemmas -/

theorem digitChar_sub_48 : ∀ e, e < 10 → (Nat.digitChar e).toNat - 48 = e := by
  decide

theorem natReprAux_eq_digits :
    ∀ (fuel n : Nat), n ≤ fuel →
      natReprAux fuel n = ((Nat.digits 10 n).map Nat.digitChar).reverse := by
  intro fuel
  induction fuel with
  | zero =>
    intro n hn
    interval_cases n
    simp [natReprAux]
  | succ fuel ih =>
    intro n hn
    by_cases h0 : n = 0
    · subst h0; simp [natReprAux]
    · rw [natReprAux, if_neg h0,
        ih (n / 10) (by
          have := Nat.div_lt_self (Nat.pos_of_ne_zero h0) (by norm_num : 1 < 10)
          omega),
        Nat.digits_def' (by norm_num : 1 < 10) (Nat.pos_of_ne_zero h0),
        List.map_cons, List.reverse_cons]

theorem foldl_digitChar (es : List Nat) (h : ∀ e ∈ es, e < 10) (a : Nat) :
    List.foldl (fun x c => x * 10 + (c.toNat - 48)) a (es.map Nat.digitChar) =
      List.foldl (fun x e => x * 10 + e) a es := by
  induction es generalizing a with
  | nil => rfl
  | cons e es ih =>
    rw [List.map_cons, List.foldl_cons, List.foldl_cons,
      digitChar_sub_48 e (h e (List.mem_cons_self e es))]
    exact ih (fun e' he' => h e' (List.mem_cons_of_mem e he')) _

theorem foldl_horner (es : List Nat) (a : Nat) :
    List.foldl (fun x e => x * 10 + e) a es =
      a * 10 ^ es.length + Nat.ofDigits 10 es.reverse := by
  induction es generalizing a with
  | nil => simp [Nat.ofDigits_nil]
  | cons e es ih =>
    rw [List.foldl_cons, ih, List.reverse_cons, Nat.ofDigits_append]
    simp only [List.length_cons, List.length_reverse, Nat.ofDigits_singleton]
    ring

theorem strToNat_natRepr (n : Nat) : strToNat (natRepr n).data = n := by
  by_cases h0 : n = 0
  · subst h0; rfl
  · have hdata : (natRepr n).data = ((Nat.digits 10 n).reverse.map Nat.digitChar) := by
      rw [natRepr, if_neg h0]
      show natReprAux n n = _
      rw [natReprAux_eq_digits n n le_rfl, List.map_reverse]
    rw [strToNat, hdata,
      foldl_digitChar _ (fun e he =>
        Nat.digits_lt_base (by norm_num) (List.mem_reverse.mp he)) 0,
      foldl_horner, List.reverse_reverse, Nat.ofDigits_digits]
    simp

theorem strToNat_replicate_zero (k : Nat) (l : List Char) :
    strToNat (List.replicate k '0' ++ l) = strToNat l := by
  induction k with
  | zero => rfl
  | succ k ih =>
    have h48 : 0 * 10 + ('0'.toNat - 48) = 0 := by decide
    rw [List.replicate_succ, List.cons_append]
    show List.foldl (fun a c => a * 10 + (c.toNat - 48)) (0 * 10 + ('0'.toNat - 48))
      (List.replicate k '0' ++ l) = strToNat l
    rw [h48]
    exact ih

theorem strToNat_zeroPad4 (n : Nat) : strToNat (zeroPad4 n).data = n := by
  rw [zeroPad4]
  by_cases h : (natRepr n).length < 4
  · rw [if_pos h]
    show strToNat (String.data (⟨List.replicate (4 - (natRepr n).length) '0'⟩ ++ natRepr n)) = n
    rw [String.data_append, strToNat_replicate_zero, strToNat_natRepr]
  · rw [if_neg h]; exact strToNat_natRepr n

theorem staffIdFor_inj {a b : Nat} (h : staffIdFor a = staffIdFor b) : a = b := by
  have hd : ("staff" ++ zeroPad4 a).data = ("staff" ++ zeroPad4 b).data :=
    congrArg String.data h
  rw [String.data_append, String.data_append] at hd
  have h2 := List.append_cancel_left hd
  have h3 := congrArg strToNat h2
  rwa [strToNat_zeroPad4, strToNat_zeroPad4] at h3

/-! ## Helper lemmas about `str.strip()` -/

theorem pyStripList_eq_rdrop (l : List Char) :
    pyStripList l = (l.dropWhile isPySpace).rdropWhile isPySpace := rfl

theorem dropWhile_rdropWhile_comm (p : Char → Bool) (m : List Char) :
    (m.rdropWhile p).dropWhile p = (m.dropWhile p).rdropWhile p := by
  induction m using List.reverseRecOn with
  | nil => simp
  | append_singleton m x ih =>
    by_cases hx : p x <;> by_cases hd : (m.dropWhile p).isEmpty
    · rw [List.rdropWhile_concat_pos _ _ x hx, ih, List.dropWhile_append,
        if_pos hd]
      rw [List.isEmpty_iff] at hd
      rw [hd]
      simp [List.dropWhile_cons, hx]
    · rw [List.rdropWhile_concat_pos _ _ x hx, ih, List.dropWhile_append,
        if_neg hd, List.rdropWhile_concat_pos _ _ x hx]
    · rw [List.rdropWhile_concat_neg _ _ x hx, List.dropWhile_append,
        if_pos hd]
      simp [List.dropWhile_cons, hx, List.rdropWhile_singleton]
    · rw [List.rdropWhile_concat_neg _ _ x hx, List.dropWhile_append,
        if_neg hd, List.rdropWhile_concat_neg _ _ x hx]

theorem pyStripList_idem (l : List Char) :
    pyStripList (pyStripList l) = pyStripList l := by
  simp only [pyStripList_eq_rdrop]
  rw [dropWhile_rdropWhile_comm, List.dropWhile_idempotent,
    List.rdropWhile_idempotent]

theorem mem_of_mem_pyStripList {c : Char} {l : List Char}
    (h : c ∈ pyStripList l) : c ∈ l := by
  simp only [pyStripList, List.mem_reverse] at h
  exact (List.dropWhile_sublist _).mem
    (by simpa using (List.dropWhile_sublist (l := (l.dropWhile isPySpace).reverse)
      isPySpace).mem h)

theorem mem_dropWhile_of_mem {p : Char → Bool} {c : Char} {l : List Char}
    (h : c ∈ l) (hc : p c = false) : c ∈ l.dropWhile p := by
  induction l with
  | nil => cases h
  | cons a t ih =>
    rcases List.mem_cons.mp h with rfl | ht
    · rw [List.dropWhile_cons, hc]; simp
    · rw [List.dropWhile_cons]
      by_cases hpa : p a
      · simpa [hpa] using ih ht
      · simp [hpa, ht]

theorem mem_pyStripList_of_mem {c : Char} {l : List Char}
    (h : c ∈ l) (hc : isPySpace c = false) : c ∈ pyStripList l := by
  simp only [pyStripList, List.mem_reverse]
  exact mem_dropWhile_of_mem (by simpa using mem_dropWhile_of_mem h hc) hc

/-! ## Helper lemmas about `foldToAsciiList` -/

theorem map_id_of_fix {l : List Char} {f : Char → Char}
    (h : ∀ a ∈ l, f a = a) : l.map f = l := by
  induction l with
  | nil => rfl
  | cons a t ih =>
    simp only [List.map_cons, h a (List.mem_cons_self a t),
      ih (fun b hb => h b (List.mem_cons_of_mem a hb))]

theorem replaceChar_eq_self {k v : Char} {m : List Char}
    (h : ∀ c ∈ m, c ≠ k) : replaceChar k v m = m :=
  map_id_of_fix (fun c hc => by simp [h c hc])

theorem mem_replaceChar_of_mem {k v c : Char} {m : List Char}
    (h : c ∈ m) (hck : c ≠ k) : c ∈ replaceChar k v m := by
  exact List.mem_map.mpr ⟨c, h, by simp [hck]⟩

theorem specialCharsMap_keys_not_ascii :
    ∀ q ∈ specialCharsMap, isAsciiC q.1 = false := by decide

theorem foldl_replace_eq_self {m : List Char}
    (hm : ∀ c ∈ m, isAsciiC c = true) (ps : List (Char × Char))
    (hps : ∀ q ∈ ps, isAsciiC q.1 = false) :
    ps.foldl (fun acc p => replaceChar p.1 p.2 acc) m = m := by
  induction ps with
  | nil => rfl
  | cons q t ih =>
    rw [List.foldl_cons, replaceChar_eq_self
      (fun c hc hck => by
        have := hm c hc
        have := hps q (List.mem_cons_self q t)
        subst hck; simp_all)]
    exact ih (fun q' hq' => hps q' (List.mem_cons_of_mem q hq'))

theorem mem_foldl_replace_of_mem {c : Char} {m : List Char}
    (h : c ∈ m) (hc : isAsciiC c = true) (ps : List (Char × Char))
    (hps : ∀ q ∈ ps, isAsciiC q.1 = false) :
    c ∈ ps.foldl (fun acc p => replaceChar p.1 p.2 acc) m := by
  induction ps generalizing m with
  | nil => exact h
  | cons q t ih =>
    rw [List.foldl_cons]
    refine ih (mem_replaceChar_of_mem h ?_)
      (fun q' hq' => hps q' (List.mem_cons_of_mem q hq'))
    intro hck
    have := hps q (List.mem_cons_self q t)
    subst hck; simp_all

theorem flatten_map_nfkd_eq_self {T : UnicodeTable} {m : List Char}
    (h : ∀ c ∈ m, T.nfkd c = [c]) : (m.map T.nfkd).flatten = m := by
  induction m with
  | nil => rfl
  | cons a t ih =>
    simp only [List.map_cons, List.flatten_cons, h a (List.mem_cons_self a t)]
    simp only [List.singleton_append, List.cons_inj_right]
    exact ih (fun b hb => h b (List.mem_cons_of_mem a hb))

theorem mem_flatten_map_nfkd {T : UnicodeTable} {c : Char} {m : List Char}
    (h : c ∈ m) (hc : T.nfkd c = [c]) : c ∈ (m.map T.nfkd).flatten := by
  refine List.mem_flatten.mpr ⟨T.nfkd c, List.mem_map_of_mem T.nfkd h, ?_⟩
  rw [hc]; exact List.mem_singleton_self c

/-- The output of `foldToAsciiList` is all-ASCII, free of `'?'`, and
already stripped. -/
theorem foldToAsciiList_output_props (T : UnicodeTable) (l : List Char) :
    (∀ c ∈ foldToAsciiList T l, isAsciiC c = true ∧ c ≠ '?') ∧
    pyStripList (foldToAsciiList T l) = foldToAsciiList T l := by
  by_cases hl : l = []
  · subst hl
    constructor
    · intro c hc; cases hc
    · rfl
  · rw [foldToAsciiList, if_neg hl]
    constructor
    · intro c hc
      have hc' := mem_of_mem_pyStripList hc
      have hc'' := List.mem_filter.mp hc'
      rcases List.mem_map.mp hc''.1 with ⟨d, _, hd⟩
      constructor
      · by_cases hda : isAsciiC d <;> simp [hda] at hd <;> subst hd
        · exact hda
        · rfl
      · simpa using hc''.2
    · exact pyStripList_idem _

/-- **C6** — `normalize_text` (member_links_scraper.py) is idempotent,
and its `Except`-threaded form never returns an error (the only
Python-level operation in it that could raise, `encode`, is called in
`'replace'` mode): for any Unicode table on which ASCII characters are
NFKD-stable and non-combining (true of the real `unicodedata` tables),
`normalize_text (normalize_text x) = normalize_text x` for every string
`x`, and `normalize_textE x = .ok (normalize_text x)`. -/
theorem normalize_text_idempotent_and_total (T : UnicodeTable)
    (h1 : ∀ c, isAsciiC c = true → T.nfkd c = [c])
    (h2 : ∀ c, isAsciiC c = true → T.combining c = false) :
    (∀ s : String, normalize_text T (normalize_text T s) = normalize_text T s) ∧
    (∀ s : String, normalize_textE T s = .ok (normalize_text T s)) := by
  constructor
  · intro s
    show (⟨foldToAsciiList T (String.data ⟨foldToAsciiList T s.data⟩)⟩ : String) =
      ⟨foldToAsciiList T s.data⟩
    have hout := foldToAsciiList_output_props T s.data
    set out := foldToAsciiList T s.data with hdef
    refine congrArg String.mk ?_
    by_cases ho : out = []
    · rw [ho]; rfl
    · show foldToAsciiList T out = out
      rw [foldToAsciiList, if_neg ho]
      have hascii : ∀ c ∈ out, isAsciiC c = true := fun c hc => (hout.1 c hc).1
      have hq : ∀ c ∈ out, c ≠ '?' := fun c hc => (hout.1 c hc).2
      rw [foldl_replace_eq_self hascii _ specialCharsMap_keys_not_ascii,
        flatten_map_nfkd_eq_self (fun c hc => h1 c (hascii c hc)),
        show List.filter (fun c => ! T.combining c) out = out from
          List.filter_eq_self.mpr (fun c hc => by simp [h2 c (hascii c hc)]),
        show List.map (fun c => if isAsciiC c then c else '?') out = out from
          map_id_of_fix (fun c hc => by simp [hascii c hc]),
        show List.filter (fun c => c ≠ '?') out = out from
          List.filter_eq_self.mpr (fun c hc => by simpa using hq c hc)]
      exact hout.2
  · intro s
    rw [normalize_textE, normalize_text, foldToAsciiList]
    by_cases hs : s.data = []
    · rw [if_pos hs, if_pos hs]
    · rw [if_neg hs, if_neg hs]
      rfl

/-- Witness for C6 at a concrete table and string. -/
theorem normalize_text_idempotent_witness :
    normalize_text trivTable (normalize_text trivTable " a?b ") =
      normalize_text trivTable " a?b " ∧
    normalize_textE trivTable " a?b " = .ok (normalize_text trivTable " a?b ") :=
  ⟨(normalize_text_idempotent_and_total trivTable (fun _ _ => rfl)
      (fun _ _ => rfl)).1 " a?b ",
   (normalize_text_idempotent_and_total trivTable (fun _ _ => rfl)
      (fun _ _ => rfl)).2 " a?b "⟩

/-- **C5 counterexample** — the claim "each character of the input that
already has an ASCII representation is preserved in the output" is
false: `'?'` is an ASCII character, yet `normalize_text` removes every
`'?'` (line 57 of src/member_links_scraper.py strips the replacement
marks), so on the input `"a?b"` the `'?'` is not preserved.  The table
used is NFKD-stable and non-combining on all characters, so it
satisfies the ASCII-stability facts of the real Unicode tables. -/
theorem normalize_text_ascii_preservation_cex :
    (∀ c, isAsciiC c = true → trivTable.nfkd c = [c]) ∧
    (∀ c, isAsciiC c = true → trivTable.combining c = false) ∧
    isAsciiC '?' = true ∧ '?' ∈ ("a?b" : String).data ∧
    normalize_text trivTable "a?b" = "ab" ∧
    ¬ (∀ s : String, ∀ c ∈ s.data, isAsciiC c = true →
        c ∈ (normalize_text trivTable s).data) := by
  refine ⟨fun _ _ => rfl, fun _ _ => rfl, by decide, by decide, by decide, ?_⟩
  intro h
  have := h "a?b" '?' (by decide) (by decide)
  revert this
  decide

/-- **C5 (amended)** — every input character that is ASCII, is not the
`'?'` replacement marker, and is not whitespace (which the final
`strip()` may remove at the ends) is preserved in the output of
`normalize_text`; moreover the explicit accent table maps the known
accented Latin characters to their unaccented equivalents, e.g.
`"Ábc" ↦ "Abc"`. -/
theorem normalize_text_preserves_plain_ascii :
    (∀ (T : UnicodeTable),
      (∀ c, isAsciiC c = true → T.nfkd c = [c]) →
      (∀ c, isAsciiC c = true → T.combining c = false) →
      ∀ (s : String) (c : Char), c ∈ s.data → isAsciiC c = true →
        c ≠ '?' → isPySpace c = false →
        c ∈ (normalize_text T s).data) ∧
    normalize_text trivTable "Ábc" = "Abc" := by
  refine ⟨?_, by decide⟩
  intro T h1 h2 s c hc ha hq hw
  have hs : s.data ≠ [] := by
    intro h0; rw [h0] at hc; cases hc
  show c ∈ foldToAsciiList T s.data
  rw [foldToAsciiList, if_neg hs]
  refine mem_pyStripList_of_mem ?_ hw
  refine List.mem_filter.mpr ⟨?_, by simpa using hq⟩
  have hstep1 : c ∈ specialCharsMap.foldl
      (fun acc p => replaceChar p.1 p.2 acc) s.data :=
    mem_foldl_replace_of_mem hc ha _ specialCharsMap_keys_not_ascii
  have hstep2 := mem_flatten_map_nfkd (T := T) hstep1 (h1 c ha)
  have hstep3 : c ∈ ((specialCharsMap.foldl
      (fun acc p => replaceChar p.1 p.2 acc) s.data).map T.nfkd).flatten.filter
      (fun d => ! T.combining d) :=
    List.mem_filter.mpr ⟨hstep2, by simp [h2 c ha]⟩
  have : (fun d => if isAsciiC d then d else '?') c = c := by simp [ha]
  simpa [this] using List.mem_map_of_mem (fun d => if isAsciiC d then d else '?') hstep3

/-- Witness for the amended C5 at a concrete table, string and
character. -/
theorem normalize_text_preserves_plain_ascii_witness :
    'b' ∈ ("a?b" : String).data ∧ isAsciiC 'b' = true ∧
    'b' ∈ (normalize_text trivTable "a?b").data :=
  ⟨by decide, by decide,
    normalize_text_preserves_plain_ascii.1 trivTable (fun _ _ => rfl)
      (fun _ _ => rfl) "a?b" 'b' (by decide) (by decide) (by decide) (by decide)⟩

/-! ## Helper lemmas about the comma split -/

theorem beforeComma_append_sep {l r : List Char} (h : ',' ∉ l) :
    beforeComma (l ++ ',' :: r) = l := by
  induction l with
  | nil => simp [beforeComma, List.takeWhile]
  | cons a t ih =>
    simp only [List.mem_cons, not_or] at h
    simp only [List.cons_append, beforeComma, List.takeWhile]
    have ha : (a ≠ ',') = true := by
      simp [decide_eq_true_eq]; exact fun hc => h.1 hc.symm
    simp only [ha, if_true]
    have := ih h.2
    simpa [beforeComma] using this

theorem afterComma_append_sep {l r : List Char} (h : ',' ∉ l) :
    afterComma (l ++ ',' :: r) = r := by
  induction l with
  | nil => simp [afterComma, List.dropWhile]
  | cons a t ih =>
    simp only [List.mem_cons, not_or] at h
    simp only [List.cons_append, afterComma, List.dropWhile]
    have ha : (a ≠ ',') = true := by
      simp [decide_eq_true_eq]; exact fun hc => h.1 hc.symm
    simp only [ha, if_true]
    have := ih h.2
    simpa [afterComma] using this

theorem hasComma_append_sep (l r : List Char) :
    hasComma (l ++ ',' :: r) = true := by
  simp [hasComma]

/-- **C7** — The `MemberName` handling of
`TravelReportsScraper._process_xml_file`: on every input with a comma,
the last name is everything left of the first comma trimmed, the first
name is everything right of it trimmed, and the rejoined full name is
exactly `first ++ " " ++ last` (the "First Last" form); on an input with
no comma the whole string becomes the last name and the first name is
empty.  In particular, for a "Last, First" input with exactly one comma
this is the claimed round trip. -/
theorem memberName_split_correct :
    (∀ raw : String,
      processMemberName raw =
        if hasComma raw.data then
          (pyStrip ⟨beforeComma raw.data⟩, pyStrip ⟨afterComma raw.data⟩,
            pyStrip ⟨afterComma raw.data⟩ ++ " " ++ pyStrip ⟨beforeComma raw.data⟩)
        else (raw, "", raw)) ∧
    (∀ l r : List Char, ',' ∉ l →
      processMemberName ⟨l ++ ',' :: r⟩ =
        (pyStrip ⟨l⟩, pyStrip ⟨r⟩, pyStrip ⟨r⟩ ++ " " ++ pyStrip ⟨l⟩)) ∧
    (∀ raw : String, hasComma raw.data = false →
      processMemberName raw = (raw, "", raw)) := by
  refine ⟨fun raw => rfl, fun l r h => ?_, fun raw h => by
    simp [processMemberName, h]⟩
  have hc : hasComma (String.data ⟨l ++ ',' :: r⟩) = true := hasComma_append_sep l r
  simp only [processMemberName, hc, if_true]
  rw [beforeComma_append_sep h, afterComma_append_sep h]

/-- Witness for C7 on the concrete one-comma input `"Smith, Jane"`. -/
theorem memberName_split_witness :
    (',' ∉ "Smith".data) ∧
    processMemberName ⟨"Smith".data ++ ',' :: " Jane".data⟩ =
      (pyStrip ⟨"Smith".data⟩, pyStrip ⟨" Jane".data⟩,
        pyStrip ⟨" Jane".data⟩ ++ " " ++ pyStrip ⟨"Smith".data⟩) :=
  ⟨by decide, memberName_split_correct.2.1 "Smith".data " Jane".data (by decide)⟩

/-- **C8** — The `Destination` handling of
`TravelReportsScraper._process_xml_file`: with a comma present the city
is everything left of the first comma trimmed and the state is the rest
trimmed; with no comma the city is the entire string and the state is
the sentinel `"FX"`.  In particular `"Paris"` yields `("Paris", "FX")`
and `"Austin, TX"` yields `("Austin", "TX")`. -/
theorem destination_split_correct :
    (∀ raw : String,
      processDestination raw =
        if hasComma raw.data then
          (pyStrip ⟨beforeComma raw.data⟩, pyStrip ⟨afterComma raw.data⟩)
        else (raw, "FX")) ∧
    processDestination "Paris" = ("Paris", "FX") ∧
    processDestination "Austin, TX" = ("Austin", "TX") := by
  refine ⟨fun raw => rfl, by decide, by decide⟩

end Wtml

namespace Wtml

/-! ## Per-record lemmas about `processRecord` -/

theorem dictInsert_of_find_none {β : Type} {l : List (String × β)} {k : String}
    (h : dictFind l k = Option.none) (v : β) :
    dictInsert l k v = l ++ [(k, v)] := by
  rw [dictInsert, h]
  rfl

theorem processRecord_member_inv (st : MatcherState) (row : TravelRow) :
    (processRecord st row).1.member_id_mapping = st.member_id_mapping ∧
    (processRecord st row).1.current_year = st.current_year := by
  unfold processRecord
  repeat' split
  all_goals exact ⟨rfl, rfl⟩

theorem processRecord_class (st : MatcherState) (row : TravelRow) :
    (processRecord st row).2.1 =
      specClassify st.member_id_mapping st.current_year row := by
  unfold processRecord specClassify
  repeat' split
  all_goals rfl

theorem processRecord_staff_cases (st : MatcherState) (row : TravelRow) :
    ((processRecord st row).1.staff_id_mapping = st.staff_id_mapping ∧
     (processRecord st row).1.next_staff_num = st.next_staff_num ∧
     (processRecord st row).2.2 = Option.none)
    ∨ (∃ e, (processRecord st row).2.2 = Option.some e ∧
        e.unique_staff_id = staffIdFor st.next_staff_num ∧
        dictFind st.staff_id_mapping e.staff_full_name = Option.none ∧
        (processRecord st row).1.staff_id_mapping
          = st.staff_id_mapping ++ [(e.staff_full_name, e.unique_staff_id)] ∧
        (processRecord st row).1.next_staff_num = st.next_staff_num + 1) := by
  unfold processRecord
  repeat' split
  all_goals try exact Or.inl ⟨rfl, rfl, rfl⟩
  all_goals
    (rename_i hnone
     rw [Option.isNone_iff_eq_none] at hnone
     refine Or.inr ⟨_, rfl, rfl, hnone, ?_, rfl⟩
     simp only [dictInsert_of_find_none hnone])

end Wtml

namespace Wtml

/-! ## Batch-level lemmas about `processRecordsGo` -/

theorem processRecordsGo_cons (st : MatcherState) (row : TravelRow)
    (rest : List TravelRow) (i : Nat) :
    (processRecordsGo st (row :: rest) i).1 =
      (processRecordsGo (processRecord st row).1 rest (i + 1)).1 ∧
    (processRecordsGo st (row :: rest) i).2.2.1 =
      optCons (processRecord st row).2.2
        (processRecordsGo (processRecord st row).1 rest (i + 1)).2.2.1 := by
  cases hcl : (processRecord st row).2.1 <;>
    simp [processRecordsGo, hcl]

theorem processRecordsGo_cons_skip {st : MatcherState} {row : TravelRow}
    {rest : List TravelRow} {i : Nat}
    (h : (processRecord st row).2.1 = RowClass.skip) :
    processRecordsGo st (row :: rest) i =
      ((processRecordsGo (processRecord st row).1 rest (i + 1)).1,
       (processRecordsGo (processRecord st row).1 rest (i + 1)).2.1,
       optCons (processRecord st row).2.2
         (processRecordsGo (processRecord st row).1 rest (i + 1)).2.2.1,
       i :: (processRecordsGo (processRecord st row).1 rest (i + 1)).2.2.2) := by
  simp [processRecordsGo, h]

theorem processRecordsGo_cons_kept {st : MatcherState} {row : TravelRow}
    {rest : List TravelRow} {i : Nat} {id : Int}
    (h : (processRecord st row).2.1 = RowClass.admitted id) :
    processRecordsGo st (row :: rest) i =
      ((processRecordsGo (processRecord st row).1 rest (i + 1)).1,
       (row, id) :: (processRecordsGo (processRecord st row).1 rest (i + 1)).2.1,
       optCons (processRecord st row).2.2
         (processRecordsGo (processRecord st row).1 rest (i + 1)).2.2.1,
       (processRecordsGo (processRecord st row).1 rest (i + 1)).2.2.2) := by
  simp [processRecordsGo, h]

theorem processRecordsGo_cons_unknown {st : MatcherState} {row : TravelRow}
    {rest : List TravelRow} {i : Nat}
    (h : (processRecord st row).2.1 = RowClass.admitUnknown) :
    processRecordsGo st (row :: rest) i =
      ((processRecordsGo (processRecord st row).1 rest (i + 1)).1,
       (row, 0) :: (processRecordsGo (processRecord st row).1 rest (i + 1)).2.1,
       optCons (processRecord st row).2.2
         (processRecordsGo (processRecord st row).1 rest (i + 1)).2.2.1,
       (processRecordsGo (processRecord st row).1 rest (i + 1)).2.2.2) := by
  simp [processRecordsGo, h]

theorem processRecordsGo_char (rows : List TravelRow) :
    ∀ (st : MatcherState) (i : Nat),
      (processRecordsGo st rows i).1.member_id_mapping = st.member_id_mapping ∧
      (processRecordsGo st rows i).1.current_year = st.current_year ∧
      (processRecordsGo st rows i).2.1 =
        rows.filterMap (specAdmitted st.member_id_mapping st.current_year) ∧
      (processRecordsGo st rows i).2.1.length +
        (processRecordsGo st rows i).2.2.2.length = rows.length := by
  induction rows with
  | nil => intro st i; exact ⟨rfl, rfl, rfl, rfl⟩
  | cons row rest ih =>
    intro st i
    obtain ⟨hm, hy⟩ := processRecord_member_inv st row
    have hcls := processRecord_class st row
    obtain ⟨ihm, ihy, ihout, ihlen⟩ := ih (processRecord st row).1 (i + 1)
    rw [hm] at ihm
    rw [hy] at ihy
    rw [hm, hy] at ihout
    cases hcl : (processRecord st row).2.1 with
    | skip =>
        rw [hcl] at hcls
        rw [processRecordsGo_cons_skip hcl]
        refine ⟨ihm, ihy, ?_, ?_⟩
        · rw [List.filterMap_cons,
            show specAdmitted st.member_id_mapping st.current_year row
              = Option.none from by rw [specAdmitted, ← hcls], ihout]
        · simp only [List.length_cons]
          omega
    | admitted id =>
        rw [hcl] at hcls
        rw [processRecordsGo_cons_kept hcl]
        refine ⟨ihm, ihy, ?_, ?_⟩
        · rw [List.filterMap_cons,
            show specAdmitted st.member_id_mapping st.current_year row
              = Option.some (row, id) from by rw [specAdmitted, ← hcls], ihout]
        · simp only [List.length_cons]
          omega
    | admitUnknown =>
        rw [hcl] at hcls
        rw [processRecordsGo_cons_unknown hcl]
        refine ⟨ihm, ihy, ?_, ?_⟩
        · rw [List.filterMap_cons,
            show specAdmitted st.member_id_mapping st.current_year row
              = Option.some (row, 0) from by rw [specAdmitted, ← hcls], ihout]
        · simp only [List.length_cons]
          omega

/-- **C1** — `process_records` classifies every record exactly by the
claimed case analysis and its output batch contains exactly the
admitted rows: a record with missing or `'badvalue'` member name is
skipped; a record whose member name is a key of the member index is
kept with `internal_unique_id` set to the mapped id; otherwise the
record is kept with the sentinel `0` iff its stripped `report_year`
equals the current calendar year, and skipped if not.  Skipped records
do not appear in the output at all, and every record is either kept or
skipped. -/
theorem process_records_classification (st : MatcherState)
    (rows : List TravelRow) :
    (process_records st rows).2.1 =
      rows.filterMap (specAdmitted st.member_id_mapping st.current_year) ∧
    (process_records st rows).2.1.length +
      (process_records st rows).2.2.2.length = rows.length :=
  ⟨(processRecordsGo_char rows st 0).2.2.1,
   (processRecordsGo_char rows st 0).2.2.2⟩

end Wtml

namespace Wtml

/-! ## Staff-index invariants (C3) -/

theorem dictFind_eq_none_iff {β : Type} (l : List (String × β)) (k : String) :
    dictFind l k = Option.none ↔ ∀ p ∈ l, p.1 ≠ k := by
  induction l with
  | nil => simp [dictFind]
  | cons q t ih =>
    rw [dictFind]
    by_cases hq : q.1 = k
    · simp [hq]
    · simp only [hq, if_false, ih, List.mem_cons]
      constructor
      · rintro h p (rfl | hp)
        · exact hq
        · exact h p hp
      · intro h p hp
        exact h p (Or.inr hp)

theorem StaffWF_of_append {st st' : MatcherState} {name : String}
    (hst : st'.staff_id_mapping =
      st.staff_id_mapping ++ [(name, staffIdFor st.next_staff_num)])
    (hnext : st'.next_staff_num = st.next_staff_num + 1)
    (hfind : dictFind st.staff_id_mapping name = Option.none)
    (h : StaffWF st) : StaffWF st' := by
  obtain ⟨hfresh, hnodup, hinj⟩ := h
  have hname : ∀ p ∈ st.staff_id_mapping, p.1 ≠ name :=
    (dictFind_eq_none_iff _ _).mp hfind
  refine ⟨?_, ?_, ?_⟩
  · intro p hp m hm
    rw [hst] at hp
    rw [hnext] at hm
    rcases List.mem_append.mp hp with hp | hp
    · exact hfresh p hp m (by omega)
    · rcases List.mem_singleton.mp hp with rfl
      intro hcontra
      have := staffIdFor_inj hcontra
      omega
  · rw [hst, List.map_append, List.nodup_append]
    refine ⟨hnodup, List.nodup_singleton _, ?_⟩
    intro x hx hx'
    rcases List.mem_map.mp hx with ⟨p, hp, rfl⟩
    simp only [List.map_cons, List.map_nil, List.mem_singleton] at hx'
    exact hname p hp hx'
  · intro p hp q hq hpq
    rw [hst] at hp hq
    rcases List.mem_append.mp hp with hp | hp <;>
      rcases List.mem_append.mp hq with hq | hq
    · exact hinj p hp q hq hpq
    · rcases List.mem_singleton.mp hq with rfl
      exact absurd hpq (hfresh p hp st.next_staff_num le_rfl)
    · rcases List.mem_singleton.mp hp with rfl
      have := hfresh q hq st.next_staff_num le_rfl
      exact absurd hpq.symm this
    · rcases List.mem_singleton.mp hp with rfl
      rcases List.mem_singleton.mp hq with rfl
      rfl

end Wtml

namespace Wtml

theorem StaffWF_congr {st st' : MatcherState}
    (h1 : st'.staff_id_mapping = st.staff_id_mapping)
    (h2 : st'.next_staff_num = st.next_staff_num)
    (h : StaffWF st) : StaffWF st' := by
  rw [StaffWF, h1, h2]
  exact h

theorem staffIdFor_range_shift (a N : Nat) (h : a + 1 ≤ N) :
    staffIdFor a :: (List.range (N - (a + 1))).map (fun j => staffIdFor (a + 1 + j)) =
      (List.range (N - a)).map (fun j => staffIdFor (a + j)) := by
  have hN : N - a = (N - (a + 1)) + 1 := by omega
  rw [hN, List.range_succ_eq_map, List.map_cons, List.map_map]
  refine congrArg₂ List.cons (by rw [Nat.add_zero]) ?_
  have hfun : ((fun j => staffIdFor (a + j)) ∘ Nat.succ) =
      (fun j => staffIdFor (a + 1 + j)) :=
    funext (fun j => congrArg staffIdFor (by omega))
  rw [hfun]

theorem processRecordsGo_staff (rows : List TravelRow) :
    ∀ (st : MatcherState) (i : Nat), StaffWF st →
      st.next_staff_num ≤ (processRecordsGo st rows i).1.next_staff_num ∧
      (processRecordsGo st rows i).1.staff_id_mapping =
        st.staff_id_mapping ++
          ((processRecordsGo st rows i).2.2.1.map
            (fun e => (e.staff_full_name, e.unique_staff_id))) ∧
      (processRecordsGo st rows i).2.2.1.map (fun e => e.unique_staff_id) =
        (List.range
            ((processRecordsGo st rows i).1.next_staff_num - st.next_staff_num)).map
          (fun j => staffIdFor (st.next_staff_num + j)) ∧
      StaffWF (processRecordsGo st rows i).1 := by
  induction rows with
  | nil =>
    intro st i h
    exact ⟨le_rfl, by simp [processRecordsGo], by simp [processRecordsGo], h⟩
  | cons row rest ih =>
    intro st i h
    obtain ⟨hcons1, hcons2⟩ := processRecordsGo_cons st row rest i
    rcases processRecord_staff_cases st row with
      ⟨hs, hn, hse⟩ | ⟨e, hse, hid, hfind, hs, hn⟩
    · have hwf1 : StaffWF (processRecord st row).1 := StaffWF_congr hs hn h
      obtain ⟨ih1, ih2, ih3, ih4⟩ := ih (processRecord st row).1 (i + 1) hwf1
      rw [hs] at ih2
      rw [hn] at ih1 ih3
      rw [hcons1, hcons2, hse]
      exact ⟨ih1, ih2, ih3, ih4⟩
    · have hwf1 : StaffWF (processRecord st row).1 :=
        StaffWF_of_append (by rw [hs, hid]) hn hfind h
      obtain ⟨ih1, ih2, ih3, ih4⟩ := ih (processRecord st row).1 (i + 1) hwf1
      rw [hn] at ih1 ih3
      rw [hcons1, hcons2, hse]
      refine ⟨by omega, ?_, ?_, ih4⟩
      · rw [ih2, hs, List.append_assoc]
        rfl
      · show e.unique_staff_id ::
          (processRecordsGo (processRecord st row).1 rest (i + 1)).2.2.1.map
            (fun e => e.unique_staff_id) = _
        rw [ih3, hid]
        exact staffIdFor_range_shift st.next_staff_num _ ih1

/-- **C3** — Session invariants of the staff index: starting from any
well-formed state (in particular the freshly initialized one), the
staff index only grows (the old index is a prefix of the new one, the
new pairs being exactly the queued `StaffEntry`s in order), every
newly allocated surrogate id is `staff` followed by the zero-padded
value of the monotonically increasing sequence counter (consecutive
values from the starting counter), the resulting index is still a
partial injection (no name twice, no id shared by two names), and the
queued entries carry pairwise distinct names, so a second record with
an already-allocated filer name queues no second entry. -/
theorem staff_index_session_invariants (st : MatcherState)
    (rows : List TravelRow) (h : StaffWF st) :
    st.next_staff_num ≤ (process_records st rows).1.next_staff_num ∧
    (process_records st rows).1.staff_id_mapping =
      st.staff_id_mapping ++
        ((process_records st rows).2.2.1.map
          (fun e => (e.staff_full_name, e.unique_staff_id))) ∧
    (process_records st rows).2.2.1.map (fun e => e.unique_staff_id) =
      (List.range
          ((process_records st rows).1.next_staff_num - st.next_staff_num)).map
        (fun j => staffIdFor (st.next_staff_num + j)) ∧
    StaffWF (process_records st rows).1 ∧
    ((process_records st rows).2.2.1.map (fun e => e.staff_full_name)).Nodup := by
  obtain ⟨h1, h2, h3, h4⟩ := processRecordsGo_staff rows st 0 h
  refine ⟨h1, h2, h3, h4, ?_⟩
  have hkeys := h4.2.1
  rw [h2, List.map_append, List.nodup_append] at hkeys
  have := hkeys.2.1
  rwa [List.map_map] at this

end Wtml

namespace Wtml

/-- Witness for C3: a session over two rows that share the new filer
name "Ann Aide" under two different member names; the invariants hold
and exactly one staff entry is queued. -/
theorem staff_index_session_invariants_witness :
    StaffWF ⟨[("Jane Doe", 7), ("Jim Poe", 8)], [], 1, 2025⟩ ∧
    ((process_records ⟨[("Jane Doe", 7), ("Jim Poe", 8)], [], 1, 2025⟩
        [⟨Option.some "Jane Doe", "2025", PyVal.str "Ann", PyVal.str "Aide"⟩,
         ⟨Option.some "Jim Poe", "2025", PyVal.str "Ann", PyVal.str "Aide"⟩]).2.2.1.map
      (fun e => e.staff_full_name)).Nodup := by
  have hwf : StaffWF ⟨[("Jane Doe", 7), ("Jim Poe", 8)], [], 1, 2025⟩ :=
    ⟨fun p hp => absurd hp (List.not_mem_nil p), by simp,
     fun p hp => absurd hp (List.not_mem_nil p)⟩
  exact ⟨hwf,
    (staff_index_session_invariants ⟨[("Jane Doe", 7), ("Jim Poe", 8)], [], 1, 2025⟩
      [⟨Option.some "Jane Doe", "2025", PyVal.str "Ann", PyVal.str "Aide"⟩,
       ⟨Option.some "Jim Poe", "2025", PyVal.str "Ann", PyVal.str "Aide"⟩]
      hwf).2.2.2.2⟩

/-! ## Staff allocation per record (C2) -/

/-- **C2 (amended)** — For every session state and record, a
`StaffEntry` is queued exactly as `amendedStaffAlloc` says: never for a
skipped record; for an admitted record iff both filer fields are
non-missing non-empty strings, the joined filer name differs from the
member name and is not yet in the staff index (the entry then carries
the resolved member id); for an admit-unknown record iff both filer
fields are non-missing non-empty strings and the joined filer name is
not yet in the staff index — with *no* comparison against the member
name — and the entry then carries a null member id. -/
theorem staff_alloc_amended (st : MatcherState) (row : TravelRow) :
    (processRecord st row).2.2 = amendedStaffAlloc st row := by
  unfold processRecord amendedStaffAlloc specClassify
  repeat' split
  all_goals try rfl
  all_goals simp_all

/-- **C2 counterexample** — the claim requires that an admit-unknown
record whose filer name equals its member name allocates no
`StaffEntry`; but on a record with unknown member "Jane Doe" (empty
member index), current-year `report_year`, and filer fields joining to
the same "Jane Doe", `process_records` *does* queue a staff entry
(the admit-unknown branch at src/upload.py lines 176-194 never
compares the filer name with the member name). -/
theorem staff_alloc_cex :
    (processRecord ⟨[], [], 1, 2025⟩
        ⟨Option.some "Jane Doe", "2025", PyVal.str "Jane", PyVal.str "Doe"⟩).2.1 =
      RowClass.admitUnknown ∧
    filerFullName (PyVal.str "Jane") (PyVal.str "Doe") = "Jane Doe" ∧
    (processRecord ⟨[], [], 1, 2025⟩
        ⟨Option.some "Jane Doe", "2025", PyVal.str "Jane", PyVal.str "Doe"⟩).2.2 =
      Option.some
        { unique_staff_id := "staff0001",
          staff_first := "Jane", staff_last := "Doe",
          staff_full_name := "Jane Doe",
          member_name := Option.none, member_id := Option.none,
          year := Option.some 2025 } := by
  refine ⟨?_, ?_, ?_⟩ <;> rfl

end Wtml

namespace Wtml

/-! ## Failure semantics of the loaders (C9) -/

theorem specAdmitted_empty_index {y : Nat} {row : TravelRow}
    {p : TravelRow × Int} (h : specAdmitted [] y row = Option.some p) :
    p.2 = 0 := by
  unfold specAdmitted specClassify at h
  rcases hm : row.member_full_name with _ | name <;> rw [hm] at h
  · cases h
  · by_cases hb : name = "badvalue"
    · simp [hb] at h
    · by_cases hy : pyStrip row.report_year = natRepr y
      · simp [hb, hy, dictFind] at h
        rw [← h]
      · simp [hb, hy, dictFind] at h

/-- **C9** — A failed roster or staff-table load is non-fatal: the
exception is swallowed and the in-memory state is unchanged; starting
from the freshly initialized state (empty indexes) `process_records`
still processes the entire batch — every record is either kept or
skipped (the counts add up), the kept records are exactly those the
empty-index case analysis admits, and every kept record carries the
unknown-member sentinel `0` (nothing can resolve, so nothing is
classified admit). -/
theorem load_failures_nonfatal (e1 e2 : String) (st : MatcherState)
    (y : Nat) (rows : List TravelRow) :
    load_member_details (.error e1) st = st ∧
    load_staff_details (.error e2) st = st ∧
    (process_records_full (.error e1) (.error e2) ⟨[], [], 1, y⟩ rows).2.1 =
      rows.filterMap (specAdmitted [] y) ∧
    (∀ p ∈ (process_records_full (.error e1) (.error e2) ⟨[], [], 1, y⟩ rows).2.1,
      p.2 = 0) ∧
    (process_records_full (.error e1) (.error e2) ⟨[], [], 1, y⟩ rows).2.1.length +
      (process_records_full (.error e1) (.error e2) ⟨[], [], 1, y⟩ rows).2.2.2.length
      = rows.length := by
  have hfull : process_records_full (.error e1) (.error e2) ⟨[], [], 1, y⟩ rows =
      process_records ⟨[], [], 1, y⟩ rows := rfl
  obtain ⟨_, _, hout, hlen⟩ := processRecordsGo_char rows ⟨[], [], 1, y⟩ 0
  refine ⟨rfl, rfl, ?_, ?_, ?_⟩
  · rw [hfull]
    exact hout
  · intro p hp
    rw [hfull] at hp
    rw [show (process_records ⟨[], [], 1, y⟩ rows).2.1 =
        rows.filterMap (specAdmitted [] y) from hout] at hp
    obtain ⟨row, _, heq⟩ := List.mem_filterMap.mp hp
    exact specAdmitted_empty_index heq
  · rw [hfull]
    exact hlen

end Wtml

namespace Wtml

/-! ## Record Sink fallback (C4) -/

theorem attemptedIdx_perRecordEvents {α : Type}
    (ins : List α → Except String Unit) (records : List α) :
    attemptedIdx (perRecordEvents ins records) = List.range records.length := by
  rw [attemptedIdx, perRecordEvents, List.filterMap_map]
  have hcongr : List.filterMap
      ((fun ev => match ev with
        | UploadEvent.recOk i => Option.some i
        | UploadEvent.recErr i _ _ => Option.some i
        | _ => Option.none) ∘
        (fun p : Nat × α => match ins [p.2] with
          | .ok _ => UploadEvent.recOk (α := α) p.1
          | .error e => UploadEvent.recErr p.1 e p.2)) records.enum =
      List.filterMap (fun p : Nat × α => Option.some p.1) records.enum := by
    refine List.filterMap_congr ?_
    intro p _
    cases hi : ins [p.2] <;> simp [hi, Function.comp]
  rw [hcongr]
  have hmap : ∀ l : List (Nat × α),
      List.filterMap (fun p : Nat × α => Option.some p.1) l = l.map Prod.fst := by
    intro l
    induction l with
    | nil => rfl
    | cons x t ih => simp [List.filterMap_cons, ih]
  rw [hmap]
  simp

end Wtml

namespace Wtml

/-- **C4 counterexample** — the claim says a failed batch insert always
falls back to attempting a separate insert for every record.  It does
not: the per-record loop sits in the same `try` as the preliminary
minimal-record diagnostic insert (src/upload.py lines 398-422), so
when that diagnostic insert raises too, the loop never runs.  With a
sink that rejects the batch `[0, 1]` and the minimal record `[99]` but
accepts each record on its own, no per-record insert is attempted at
all. -/
theorem sink_fallback_cex :
    (fun l => if l = [0, 1] ∨ l = [99] then Except.error "schema mismatch"
      else Except.ok () : List Nat → Except String Unit) [0, 1] =
        Except.error "schema mismatch" ∧
    (fun l => if l = [0, 1] ∨ l = [99] then Except.error "schema mismatch"
      else Except.ok () : List Nat → Except String Unit) [0] = Except.ok () ∧
    (fun l => if l = [0, 1] ∨ l = [99] then Except.error "schema mismatch"
      else Except.ok () : List Nat → Except String Unit) [1] = Except.ok () ∧
    attemptedIdx (upload_data_insert
      (fun l => if l = [0, 1] ∨ l = [99] then Except.error "schema mismatch"
        else Except.ok ())
      (fun _ => 99) [0, 1]) = [] ∧
    attemptedIdx (upload_data_insert
      (fun l => if l = [0, 1] ∨ l = [99] then Except.error "schema mismatch"
        else Except.ok ())
      (fun _ => 99) [0, 1]) ≠ List.range 2 := by
  refine ⟨rfl, rfl, rfl, rfl, ?_⟩
  decide

/-- **C4 (amended)** — when the batch insert fails on a non-empty
batch *and the preliminary minimal-record diagnostic insert does not
raise*, the Sink attempts a separate insert for every record of the
batch in order; each per-record failure is reported as an event
carrying the record's index and a dump of the record, and does not
prevent the attempts for the subsequent records. -/
theorem sink_fallback_amended {α : Type} (ins : List α → Except String Unit)
    (mkMinimal : α → α) (records : List α) (r0 : α) (rest : List α)
    (e : String) (hrec : records = r0 :: rest)
    (hb : ins records = Except.error e)
    (hm : ins [mkMinimal r0] = Except.ok ()) :
    upload_data_insert ins mkMinimal records =
      UploadEvent.batchErr e :: UploadEvent.schemaProbe ::
        UploadEvent.minimalOk :: perRecordEvents ins records ∧
    attemptedIdx (upload_data_insert ins mkMinimal records) =
      List.range records.length ∧
    (∀ (i : Nat) (rec : α) (m : String), records.get? i = Option.some rec →
      ins [rec] = Except.error m →
      UploadEvent.recErr i m rec ∈ upload_data_insert ins mkMinimal records) := by
  subst hrec
  have hevs : upload_data_insert ins mkMinimal (r0 :: rest) =
      UploadEvent.batchErr e :: UploadEvent.schemaProbe ::
        UploadEvent.minimalOk :: perRecordEvents ins (r0 :: rest) := by
    simp only [upload_data_insert, hb, hm]
  refine ⟨hevs, ?_, ?_⟩
  · rw [hevs, attemptedIdx, List.filterMap_cons, List.filterMap_cons,
      List.filterMap_cons]
    exact attemptedIdx_perRecordEvents ins (r0 :: rest)
  · intro i rec m hget hins
    rw [hevs]
    refine List.mem_cons_of_mem _ (List.mem_cons_of_mem _
      (List.mem_cons_of_mem _ ?_))
    have hmem : (i, rec) ∈ (r0 :: rest).enum :=
      List.mk_mem_enum_iff_get?.mpr hget
    have := List.mem_map_of_mem
      (fun p : Nat × α => match ins [p.2] with
        | .ok _ => UploadEvent.recOk (α := α) p.1
        | .error e' => UploadEvent.recErr p.1 e' p.2) hmem
    rw [perRecordEvents]
    simpa [hins] using this

/-- Witness for the amended C4: a batch of five records where only the
record at index 2 is rejected; all five are attempted, the failure at
index 2 is reported with its dump, and records 0, 1, 3, 4 still go
through. -/
theorem sink_fallback_amended_witness :
    upload_data_insert
        (fun l => if l = [10, 11, 12, 13, 14] ∨ l = [12] then
          Except.error "bad numeric" else Except.ok ())
        (fun _ => 0) [10, 11, 12, 13, 14] =
      UploadEvent.batchErr "bad numeric" :: UploadEvent.schemaProbe ::
        UploadEvent.minimalOk :: perRecordEvents
          (fun l => if l = [10, 11, 12, 13, 14] ∨ l = [12] then
            Except.error "bad numeric" else Except.ok ())
          [10, 11, 12, 13, 14] ∧
    attemptedIdx (upload_data_insert
        (fun l => if l = [10, 11, 12, 13, 14] ∨ l = [12] then
          Except.error "bad numeric" else Except.ok ())
        (fun _ => 0) [10, 11, 12, 13, 14]) = List.range 5 ∧
    (∀ (i : Nat) (rec : Nat) (m : String),
      [10, 11, 12, 13, 14].get? i = Option.some rec →
      (fun l => if l = [10, 11, 12, 13, 14] ∨ l = [12] then
        Except.error "bad numeric" else Except.ok ()) [rec] = Except.error m →
      UploadEvent.recErr i m rec ∈ upload_data_insert
        (fun l => if l = [10, 11, 12, 13, 14] ∨ l = [12] then
          Except.error "bad numeric" else Except.ok ())
        (fun _ => 0) [10, 11, 12, 13, 14]) :=
  sink_fallback_amended
    (fun l => if l = [10, 11, 12, 13, 14] ∨ l = [12] then
      Except.error "bad numeric" else Except.ok ())
    (fun _ => 0) [10, 11, 12, 13, 14] 10 [11, 12, 13, 14] "bad numeric"
    rfl rfl rfl

end Wtml

namespace Wtml

/-! ## Frame lemmas for the DataFrame heap (C10) -/

theorem getElem?_append_lt {h : List PDF} {t : List PDF} {p : Nat}
    (hp : p < h.length) : (h ++ t)[p]? = h[p]? :=
  List.getElem?_append_left hp

theorem foldl_hSet_frame {β : Type} (q : Nat) (g : List PDF → β → PDF)
    (ws : List β) :
    ∀ (h : List PDF) (p : Nat), p ≠ q →
      (ws.foldl (fun hh w => hSet hh q (g hh w)) h)[p]? = h[p]? := by
  induction ws with
  | nil => intro h p _; rfl
  | cons w ws ih =>
    intro h p hpq
    rw [List.foldl_cons]
    rw [ih (hSet h q (g h w)) p hpq]
    exact List.getElem?_set_ne hpq.symm

theorem foldl_hSet_length {β : Type} (q : Nat) (g : List PDF → β → PDF)
    (ws : List β) :
    ∀ (h : List PDF),
      (ws.foldl (fun hh w => hSet hh q (g hh w)) h).length = h.length := by
  induction ws with
  | nil => intro h; rfl
  | cons w ws ih =>
    intro h
    rw [List.foldl_cons, ih, hSet, List.length_set]

theorem prHeap1_frame (st : MatcherState) (h : List PDF) (p p' : Nat)
    (hp' : p' < h.length) : (prHeap1 st h p)[p']? = h[p']? := by
  rw [prHeap1, atWrites,
    foldl_hSet_frame h.length _ _ _ p' (by omega)]
  exact getElem?_append_lt hp'

theorem prHeap1_length (st : MatcherState) (h : List PDF) (p : Nat) :
    (prHeap1 st h p).length = h.length + 1 := by
  rw [prHeap1, atWrites, foldl_hSet_length, List.length_append]
  rfl

theorem processRecordsHeap_frame (st : MatcherState) (h : List PDF)
    (p p' : Nat) (hp' : p' < h.length) :
    ((processRecordsHeap st h p).1)[p']? = h[p']? ∧
    h.length ≤ (processRecordsHeap st h p).1.length := by
  rw [processRecordsHeap]
  by_cases hskip : (matcherLoop st (hGet h p).rows 0).2.2.2.isEmpty
  · rw [if_pos hskip]
    exact ⟨prHeap1_frame st h p p' hp', by rw [prHeap1_length]; omega⟩
  · rw [if_neg hskip]
    have hlen := prHeap1_length st h p
    constructor
    · show (prHeap1 st h p ++ [_] ++ [_])[p']? = h[p']?
      rw [getElem?_append_lt (by rw [List.length_append, hlen]; omega),
        getElem?_append_lt (by omega : p' < (prHeap1 st h p).length)]
      exact prHeap1_frame st h p p' hp'
    · show h.length ≤ (prHeap1 st h p ++ [_] ++ [_]).length
      rw [List.length_append, List.length_append, hlen]
      omega

theorem mapFieldsHeap_frame (h : List PDF) (p p' : Nat)
    (fm : Option (List (String × String))) (hp' : p' < h.length) :
    ((mapFieldsHeap h p fm).1)[p']? = h[p']? ∧
    h.length ≤ (mapFieldsHeap h p fm).1.length := by
  cases fm with
  | none =>
    refine ⟨?_, ?_⟩
    · show (h ++ [_] ++ [_])[p']? = h[p']?
      rw [getElem?_append_lt (by simp; omega), getElem?_append_lt hp']
    · show h.length ≤ (h ++ [_] ++ [_]).length
      simp
  | some m =>
    refine ⟨?_, ?_⟩
    · show (h ++ [_] ++ [_] ++ [_])[p']? = h[p']?
      rw [getElem?_append_lt (by simp; omega),
        getElem?_append_lt (by simp; omega), getElem?_append_lt hp']
    · show h.length ≤ (h ++ [_] ++ [_] ++ [_]).length
      simp

theorem handleNanHeap_frame (h : List PDF) (p p' : Nat)
    (hp' : p' < h.length) :
    ((handleNanHeap h p).1)[p']? = h[p']? ∧
    h.length ≤ (handleNanHeap h p).1.length := by
  constructor
  · show ((hGet h p).cols.foldl
        (fun hh c => hSet hh h.length (handleNanCol (hGet hh h.length) c))
        (h ++ [hGet h p]))[p']? = h[p']?
    rw [foldl_hSet_frame h.length _ _ _ p' (by omega)]
    exact getElem?_append_lt hp'
  · show h.length ≤ ((hGet h p).cols.foldl
        (fun hh c => hSet hh h.length (handleNanCol (hGet hh h.length) c))
        (h ++ [hGet h p])).length
    rw [foldl_hSet_length, List.length_append]
    omega

theorem renameFold_frame (m : List (String × String)) :
    ∀ (h : List PDF) (p p' : Nat), p' < h.length →
      ((renameFold h p m).1)[p']? = h[p']? ∧
      h.length ≤ (renameFold h p m).1.length := by
  induction m with
  | nil => intro h p p' hp'; exact ⟨rfl, le_rfl⟩
  | cons q rest ih =>
    intro h p p' hp'
    obtain ⟨o, n⟩ := q
    rw [renameFold]
    by_cases hc : (hGet h p).cols.any (fun c => c.1 = o)
    · rw [if_pos hc]
      obtain ⟨ih1, ih2⟩ := ih (h ++ [dfRename (hGet h p) [(o, n)]]) h.length p'
        (by simp; omega)
      refine ⟨?_, ?_⟩
      · rw [ih1, getElem?_append_lt hp']
      · have hle : h.length ≤ (h ++ [dfRename (hGet h p) [(o, n)]]).length := by
          simp
        omega
    · rw [if_neg hc]
      exact ih h p p' hp'

end Wtml

namespace Wtml

theorem uploadDataHeap_frame (st : MatcherState) (h : List PDF) (p p' : Nat)
    (fm : Option (List (String × String))) (mr : Option Nat)
    (hp' : p' < h.length) :
    ((uploadDataHeap st h p fm mr).1)[p']? = h[p']? := by
  rcases hr : renameFold (h ++ [hGet h p]) h.length
      (match fm with
       | Option.none => []
       | Option.some m => m) with ⟨h1, p1⟩
  rcases hpr : processRecordsHeap st h1 p1 with ⟨h2, p2, st2⟩
  rcases hmf : mapFieldsHeap h2 p2 Option.none with ⟨h3, p3⟩
  rcases hhn : handleNanHeap h3 p3 with ⟨h4, p4⟩
  have hbase : p' < (h ++ [hGet h p]).length := by
    rw [List.length_append]; simp; omega
  obtain ⟨f1, l1⟩ := renameFold_frame _ (h ++ [hGet h p]) h.length p' hbase
  rw [hr] at f1 l1
  dsimp only at f1 l1
  have hl1 : p' < h1.length := by
    rw [List.length_append] at l1; simp at l1; omega
  obtain ⟨f2, l2⟩ := processRecordsHeap_frame st h1 p1 p' hl1
  rw [hpr] at f2 l2
  dsimp only at f2 l2
  have hl2 : p' < h2.length := by omega
  obtain ⟨f3, l3⟩ := mapFieldsHeap_frame h2 p2 p' Option.none hl2
  rw [hmf] at f3 l3
  dsimp only at f3 l3
  have hl3 : p' < h3.length := by omega
  obtain ⟨f4, l4⟩ := handleNanHeap_frame h3 p3 p' hl3
  rw [hhn] at f4 l4
  dsimp only at f4 l4
  have hl4 : p' < h4.length := by omega
  have hchain : h4[p']? = h[p']? := by
    rw [f4, f3, f2, f1, getElem?_append_lt hp']
  simp only [uploadDataHeap, hr, hpr, hmf, hhn]
  cases mr with
  | none => exact hchain
  | some k =>
    dsimp only
    by_cases hk : k ≠ 0 ∧ k < (hGet h4 p4).rows.length
    · rw [if_pos hk]
      show (h4 ++ [dfHead (hGet h4 p4) k])[p']? = h[p']?
      rw [getElem?_append_lt hl4]
      exact hchain
    · rw [if_neg hk]
      exact hchain

/-- **C10** — None of `process_records`, `map_fields`,
`handle_nan_values` and `upload_data` mutates the caller's DataFrame:
each first copies its argument into a fresh heap cell
(`df.copy()`), every in-place write (`.at[...]`, `clean_df[col] = ...`)
targets that fresh cell (or later fresh cells from `rename`, `drop`,
`reset_index`, selection, `head`), and the cell holding the argument is
bit-for-bit unchanged when the method returns. -/
theorem upload_pipeline_no_input_mutation (st : MatcherState) (h : List PDF)
    (p : Nat) (fm : Option (List (String × String))) (mr : Option Nat)
    (hp : p < h.length) :
    ((processRecordsHeap st h p).1)[p]? = h[p]? ∧
    ((mapFieldsHeap h p fm).1)[p]? = h[p]? ∧
    ((handleNanHeap h p).1)[p]? = h[p]? ∧
    ((uploadDataHeap st h p fm mr).1)[p]? = h[p]? :=
  ⟨(processRecordsHeap_frame st h p p hp).1,
   (mapFieldsHeap_frame h p p fm hp).1,
   (handleNanHeap_frame h p p hp).1,
   uploadDataHeap_frame st h p p fm mr hp⟩

/-- Witness for C10 at a concrete one-cell heap. -/
theorem upload_pipeline_no_input_mutation_witness :
    ((processRecordsHeap ⟨[], [], 1, 2025⟩
        [⟨[("member_full_name", Dtype.object)],
          [[("member_full_name", PyVal.str "Jane Doe")]]⟩] 0).1)[0]? =
      [(⟨[("member_full_name", Dtype.object)],
          [[("member_full_name", PyVal.str "Jane Doe")]]⟩ : PDF)][0]? ∧
    ((mapFieldsHeap
        [⟨[("member_full_name", Dtype.object)],
          [[("member_full_name", PyVal.str "Jane Doe")]]⟩] 0 Option.none).1)[0]? =
      [(⟨[("member_full_name", Dtype.object)],
          [[("member_full_name", PyVal.str "Jane Doe")]]⟩ : PDF)][0]? ∧
    ((handleNanHeap
        [⟨[("member_full_name", Dtype.object)],
          [[("member_full_name", PyVal.str "Jane Doe")]]⟩] 0).1)[0]? =
      [(⟨[("member_full_name", Dtype.object)],
          [[("member_full_name", PyVal.str "Jane Doe")]]⟩ : PDF)][0]? ∧
    ((uploadDataHeap ⟨[], [], 1, 2025⟩
        [⟨[("member_full_name", Dtype.object)],
          [[("member_full_name", PyVal.str "Jane Doe")]]⟩] 0
        Option.none Option.none).1)[0]? =
      [(⟨[("member_full_name", Dtype.object)],
          [[("member_full_name", PyVal.str "Jane Doe")]]⟩ : PDF)][0]? :=
  upload_pipeline_no_input_mutation ⟨[], [], 1, 2025⟩
    [⟨[("member_full_name", Dtype.object)],
      [[("member_full_name", PyVal.str "Jane Doe")]]⟩] 0
    Option.none Option.none (by decide)

end Wtml

namespace Wtml

/-- Witness for C9: both loaders leave a concrete state untouched on a
failed query. -/
theorem load_failures_nonfatal_witness :
    load_member_details (.error "db down") ⟨[("Jane Doe", 7)], [], 1, 2025⟩ =
      ⟨[("Jane Doe", 7)], [], 1, 2025⟩ ∧
    load_staff_details (.error "db down") ⟨[("Jane Doe", 7)], [], 1, 2025⟩ =
      ⟨[("Jane Doe", 7)], [], 1, 2025⟩ :=
  ⟨(load_failures_nonfatal "db down" "db down" ⟨[("Jane Doe", 7)], [], 1, 2025⟩
      2025 []).1,
   (load_failures_nonfatal "db down" "db down" ⟨[("Jane Doe", 7)], [], 1, 2025⟩
      2025 []).2.1⟩

end Wtml
